import Mathlib

set_option linter.unusedSectionVars false
set_option linter.unnecessarySimpa false

/-!
Verification of the go-gg grouping engine (`table/group.go`) and facet layout
algorithm (`gg/facet.go`).

The table storage collaborator (columns, constant columns, builders, the
generic gather/concat operations) is not part of the sources; it is modelled
from the specification's data model and external-interface contracts.  The
grouping and faceting algorithms themselves are translated directly from the
Go sources.

Go `interface{}` values are modelled by a type parameter `V` with decidable
equality.  Identity-carrying heap objects of the facet engine (subplots,
bands, scales) carry explicit allocation tags, threaded through the
computation as a counter, so that two allocations with equal fields are still
distinct values, as in Go.
-/

namespace GoGG

/-- `GroupID` from `table/group.go`: a node in the group tree.  `root` is
`RootGroupID`; `extend` is `GroupID.Extend`, recording the parent and the
label.  (Paths of labels model the identity; the grouping invariant that all
GroupIDs of a Grouping are distinct is carried as a `Nodup` hypothesis where
it matters.) -/
inductive GroupID (V : Type) where
  | root
  | extend (par : GroupID V) (lab : V)
deriving DecidableEq

/-- `GroupID.Parent` from `table/group.go`: the parent of the root is the
root. -/
def GroupID.parent {V : Type} : GroupID V → GroupID V
  | .root => .root
  | .extend p _ => p

/-- `GroupID.Label` from `table/group.go`; the root's label is the nil
interface, modelled as `none`. -/
def labelGet {V : Type} : GroupID V → Option V
  | .root => none
  | .extend _ l => some l

/-- Modelled from the spec: a column of the external table storage is either
an ordinary sequence of per-row values or a declared constant (one value,
logically repeated for every row). -/
inductive Col (V : Type) where
  | seq (xs : List V)
  | const (cv : V)
deriving DecidableEq

/-- Modelled from the spec: a table is an ordered collection of named
columns together with its row count; non-constant columns must have length
equal to the row count (the `Wf` predicate below). -/
structure Table (V : Type) where
  cols : List (String × Col V)
  len : Nat
deriving DecidableEq

/-- Modelled from the spec: a `Grouping` is an ordered collection of
(GroupID, Table) pairs; the builder preserves insertion order. -/
structure Grouping (V : Type) where
  pairs : List (GroupID V × Table V)
deriving DecidableEq

variable {V : Type} [DecidableEq V]

/-- Modelled from the spec: look a column up by name (first match, as column
names are unique within a table). -/
def findCol (t : Table V) (name : String) : Option (Col V) :=
  (t.cols.find? (fun nc => decide (nc.1 = name))).map (fun nc => nc.2)

/-- Modelled from the spec: `Table.Const` — the value of a declared constant
column, or `none` if the column is absent or an ordinary sequence. -/
def tconst (t : Table V) (name : String) : Option V :=
  match findCol t name with
  | some (Col.const cv) => some cv
  | _ => none

/-- Modelled from the spec: the sequence of an ordinary (non-constant)
column, or `none` if absent or constant.  `Table.MustColumn` is this plus a
fatal error on `none`. -/
def tcolumn (t : Table V) (name : String) : Option (List V) :=
  match findCol t name with
  | some (Col.seq xs) => some xs
  | _ => none

/-- Column names of a table, in order (`Table.Columns`). -/
def colNames (t : Table V) : List String := t.cols.map (fun nc => nc.1)

/-- Modelled from the spec: materialize a column to a per-row sequence; a
constant is logically repeated for every row. -/
def colMat (col : Col V) (len : Nat) : List V :=
  match col with
  | Col.seq xs => xs
  | Col.const cv => List.replicate len cv

/-- Modelled from the spec: `Table.Column` — the materialized sequence of a
named column (empty when the column is absent, as Go returns nil). -/
def tcolMat (t : Table V) (name : String) : List V :=
  match findCol t name with
  | some col => colMat col t.len
  | none => []

/-- The i-th entry of a column (`none` past the end). -/
def colAt (col : Col V) (len i : Nat) : Option V :=
  match col with
  | Col.seq xs => xs[i]?
  | Col.const cv => if i < len then some cv else none

/-- Row `i` of a table: the tuple of its columns' values at index `i`. -/
def rowAt (t : Table V) (i : Nat) : List (Option V) :=
  t.cols.map (fun nc => colAt nc.2 t.len i)

/-- All rows of a table, in order. -/
def rowsOfTable (t : Table V) : List (List (Option V)) :=
  (List.range t.len).map (fun i => rowAt t i)

/-- Well-formedness of a table: unique column names, and every ordinary
column has exactly `len` entries (the builder of the table storage enforces
both). -/
def Wf (t : Table V) : Prop :=
  (colNames t).Nodup ∧
    ∀ nc ∈ t.cols, (match nc.2 with
      | Col.seq xs => some xs.length
      | Col.const _ => none) = none ∨
      (match nc.2 with
       | Col.seq xs => some xs.length
       | Col.const _ => none) = some t.len

/-- Well-formedness is decidable (the tables in witnesses are concrete). -/
instance decWf (t : Table V) : Decidable (Wf t) := by
  unfold Wf
  infer_instance

/-- The distinct values of a list in first-occurrence order, with an
accumulator of already-seen values: the index built by `GroupBy`'s scan
(`gidkey` / `subgroups` in `table/group.go`). -/
def firstOccAux (seen : List V) : List V → List V
  | [] => []
  | x :: xs => if x ∈ seen then firstOccAux seen xs else x :: firstOccAux (x :: seen) xs

/-- Distinct values of a list in first-occurrence order. -/
def firstOcc (xs : List V) : List V := firstOccAux [] xs

/-- The row indices holding value `v`, in increasing order: the `rowsMap`
bucket that `GroupBy`'s scan accumulates for `v`. -/
def rowsOf (xs : List V) (v : V) : List Nat :=
  (List.range xs.length).filter (fun i => decide (xs[i]? = some v))

/-- `generic.MultiIndex`: gather the entries of `xs` at the given indices,
preserving their order. -/
def multiIndex (xs : List V) (rows : List Nat) : List V :=
  rows.filterMap (fun i => xs[i]?)

/-- The per-value child table built by `GroupBy` (`table/group.go`, the
"Split this group in all columns" loop): the grouped-by column becomes a
constant with the group's value, constants stay constants, ordinary columns
are gathered at the group's row indices. -/
def splitTable (c : String) (t : Table V) (v : V) (rows : List Nat) : Table V :=
  { cols := t.cols.map (fun nc =>
      if nc.1 = c then (nc.1, Col.const v)
      else
        match nc.2 with
        | Col.const cv => (nc.1, Col.const cv)
        | Col.seq xs => (nc.1, Col.seq (multiIndex xs rows))),
    len := rows.length }

/-- One group's worth of `GroupBy` (`table/group.go` lines 90–145): a
constant grouped-by column splits trivially; otherwise the column is scanned
and one child per distinct value is emitted in first-occurrence order;
`none` models the fatal `MustColumn` error when the column is absent. -/
def groupByGroup (c : String) (gid : GroupID V) (t : Table V) :
    Option (List (GroupID V × Table V)) :=
  match tconst t c with
  | some cv => some [(gid.extend cv, t)]
  | none =>
    match tcolumn t c with
    | none => none
    | some xs =>
      some ((firstOcc xs).map (fun v => (gid.extend v, splitTable c t v (rowsOf xs v))))

/-- Map a fallible function over a list, failing if any application fails
(the loop over groups aborts on the first fatal error). -/
def optMapList {κ ν : Type} (f : κ → Option ν) : List κ → Option (List ν)
  | [] => some []
  | a :: as =>
    match f a, optMapList f as with
    | some b, some bs => some (b :: bs)
    | _, _ => none

/-- One `GroupBy` pass over a grouping for a single column name. -/
def groupByCol (c : String) (g : Grouping V) : Option (Grouping V) :=
  (optMapList (fun pr => groupByGroup c pr.1 pr.2) g.pairs).map (fun ls => ⟨ls.flatten⟩)

/-- `GroupBy` from `table/group.go`: processes the first column name and
recurses on the rest; zero names return the grouping unchanged. -/
def GroupBy (g : Grouping V) : List String → Option (Grouping V)
  | [] => some g
  | c :: cs => (groupByCol c g).bind (fun g2 => GroupBy g2 cs)

/-- `concatRows` from `table/group.go`: row-concatenation of tables assumed
to share a column set; the first table's column list is authoritative, zero
tables give an empty table, one table is returned unchanged. -/
def concatRows : List (Table V) → Table V
  | [] => { cols := [], len := 0 }
  | [t] => t
  | t0 :: t1 :: rest =>
    { cols := t0.cols.map (fun nc =>
        (nc.1, Col.seq ((t0 :: t1 :: rest).flatMap (fun t => tcolMat t nc.1)))),
      len := ((t0 :: t1 :: rest).map (fun t => t.len)).sum }

/-- The run-merging loop of `Ungroup` (`table/group.go` lines 160–174):
accumulate tables while the parent stays the same, flush a run when it
changes, flush the final run at the end. -/
def ungroupRuns (runGid : GroupID V) (runTabs : List (Table V)) :
    List (GroupID V × Table V) → List (GroupID V × Table V)
  | [] => [(runGid, concatRows runTabs)]
  | (gid, t) :: rest =>
    if gid.parent = runGid then ungroupRuns runGid (runTabs ++ [t]) rest
    else (runGid, concatRows runTabs) :: ungroupRuns gid.parent [t] rest

/-- `Ungroup` from `table/group.go`: merge positionally adjacent groups that
share a parent; zero groups or the single root group pass through. -/
def Ungroup (g : Grouping V) : Grouping V :=
  match g.pairs with
  | [] => g
  | (gid0, t0) :: rest =>
    if gid0 = GroupID.root ∧ rest = [] then g
    else ⟨ungroupRuns gid0.parent [] ((gid0, t0) :: rest)⟩

/-- `Flatten` from `table/group.go`: concatenate every group's table; zero
groups give an empty table, one group returns its table unchanged. -/
def Flatten (g : Grouping V) : Table V :=
  match g.pairs with
  | [] => { cols := [], len := 0 }
  | [pr] => pr.2
  | prs => concatRows (prs.map (fun pr => pr.2))

/-- Rows of a family of named, already-materialized columns with `n` rows
(used to reason about `concatRows`). -/
def vrows (ncols : List (String × List V)) (n : Nat) : List (List (Option V)) :=
  (List.range n).map (fun i => ncols.map (fun nc => nc.2[i]?))

/-- The concatenation, across tables, of the materialized column `name`
(the per-column gather of `concatRows`). -/
def catMats (ts : List (Table V)) (name : String) : List V :=
  ts.flatMap (fun t => tcolMat t name)

/-- A list has equal entries in contiguous runs: whenever two positions hold
the same value, every position between them holds it too. -/
def ContigAt {β : Type} (l : List β) : Prop :=
  ∀ i j k : Nat, ∀ x : β, i ≤ j → j ≤ k →
    l[i]? = some x → l[k]? = some x → l[j]? = some x

/-- `subplotBand` from `gg/facet.go`: a strip of subplots with a parent band
and a label; `nilB` models the nil pointer.  The `tag` is the allocation
identity: two bands with equal fields but different tags are distinct
objects, as two Go allocations are. -/
inductive BandT where
  | nilB
  | mk (par : BandT) (lab : String) (tag : Nat)
deriving DecidableEq

/-- `subplot` from `gg/facet.go`: parent subplot, grid position, vertical and
horizontal band; `nilS` models the nil pointer and `tag` the allocation
identity. -/
inductive SubplotT where
  | nilS
  | mk (par : SubplotT) (x y : Nat) (vB hB : BandT) (tag : Nat)
deriving DecidableEq

/-- The x position of a subplot. -/
def SubplotT.sx : SubplotT → Nat
  | SubplotT.nilS => 0
  | SubplotT.mk _ x _ _ _ _ => x

/-- The y position of a subplot. -/
def SubplotT.sy : SubplotT → Nat
  | SubplotT.nilS => 0
  | SubplotT.mk _ _ y _ _ _ => y

/-- The vertical band of a subplot. -/
def SubplotT.svB : SubplotT → BandT
  | SubplotT.nilS => BandT.nilB
  | SubplotT.mk _ _ _ vb _ _ => vb

/-- The horizontal band of a subplot. -/
def SubplotT.shB : SubplotT → BandT
  | SubplotT.nilS => BandT.nilB
  | SubplotT.mk _ _ _ _ hb _ => hb

/-- `rootSubplot` from `gg/facet.go`: the singleton subplot of the whole
unfaceted plot area at position (0,0). -/
def rootSubplot : SubplotT := SubplotT.mk SubplotT.nilS 0 0 BandT.nilB BandT.nilB 0

/-- A group label in the facet engine: either a data value of the faceted
column or a reference to a subplot (Go stores both through `interface{}`). -/
inductive FVal (α : Type) where
  | v (x : α)
  | sp (s : SubplotT)
deriving DecidableEq

/-- `subplotOf` from `gg/facet.go`: walk up the GroupID chain until a label
that is a subplot reference is found; the root of the chain owns the shared
`rootSubplot`. -/
def subplotOf {α : Type} : GroupID (FVal α) → SubplotT
  | GroupID.root => rootSubplot
  | GroupID.extend p l =>
    match l with
    | FVal.sp s => s
    | FVal.v _ => subplotOf p

/-- Modelled from the spec: an axis scale object of the scale collaborator.
`base` is an original scale, `clone` the result of `CloneScaler`; the `tag`
is the allocation identity of the clone. -/
inductive ScalerV where
  | base (n : Nat)
  | clone (orig : ScalerV) (tag : Nat)
deriving DecidableEq

/-- Modelled from the spec: a plot holds its grouped data and, per axis, the
scales assigned at specific GroupIDs (`SetScaleAt` entries) plus a default
scale used when no entry is found on a GroupID's ancestor chain. -/
structure Plot (α : Type) where
  data : Grouping (FVal α)
  xscales : List (GroupID (FVal α) × ScalerV)
  yscales : List (GroupID (FVal α) × ScalerV)
  xdef : ScalerV
  ydef : ScalerV
deriving DecidableEq

/-- `FacetCommon` from `gg/facet.go`: the column to facet by, the two
scale-splitting flags and the label function. -/
structure FacetCfg (α : Type) where
  col : String
  splitX : Bool
  splitY : Bool
  labeler : Option (FVal α) → String

/-- Association-list lookup, modelling a Go map read (first, i.e. most
recent, binding wins). -/
def alook {κ ν : Type} [DecidableEq κ] : List (κ × ν) → κ → Option ν
  | [], _ => none
  | p :: ps, k => if p.1 = k then some p.2 else alook ps k

/-- Modelled from the spec: `GetScale(axis, gid)` resolves a scale by
walking up the GroupID ancestor chain to the nearest assignment, falling
back to the axis default. -/
def getScaleIn {α : Type} [DecidableEq α] (m : List (GroupID (FVal α) × ScalerV))
    (dflt : ScalerV) : GroupID (FVal α) → ScalerV
  | GroupID.root =>
    match alook m GroupID.root with
    | some s => s
    | none => dflt
  | GroupID.extend p l =>
    match alook m (GroupID.extend p l) with
    | some s => s
    | none => getScaleIn m dflt p

/-- Ordering on facet values: only actual data values of an orderable column
compare (Go's `generic.Sort` sorts the collected values of the column's
element type). -/
def fvalLt {α : Type} (lt : α → α → Bool) : Option (FVal α) → Option (FVal α) → Bool
  | some (FVal.v a), some (FVal.v b) => lt a b
  | _, _ => false

/-- The distinct facet values over all groups of the grouped data, in
first-discovery order (the `vals` map of `FacetCommon.apply`). -/
def facetVals {α : Type} [DecidableEq α] (grouped : Grouping (FVal α)) :
    List (Option (FVal α)) :=
  firstOcc (grouped.pairs.map (fun pr => labelGet pr.1))

/-- The dense index assigned to a facet value: its rank in sorted order when
the value type is orderable, its first-discovery position otherwise
(`valInfo.index` in `gg/facet.go`). -/
def facetIdx {α : Type} [DecidableEq α] (canOrder : Bool) (lt : α → α → Bool)
    (valsD : List (Option (FVal α))) (v : Option (FVal α)) : Nat :=
  if canOrder then (valsD.filter (fun u => fvalLt lt u v)).length
  else valsD.findIdx (fun u => decide (u = v))

/-- Split a band into one new child band per facet value, slot `i` carrying
the label of the value with index `i` (`gg/facet.go` lines 166–174); fresh
allocation tags start at `c0`. -/
def mkBands (par : BandT) (labs : List String) (c0 : Nat) : List BandT :=
  (List.range labs.length).map (fun i => BandT.mk par (labs.getD i "") (c0 + i))

/-- Split a subplot into one new child subplot per facet value
(`gg/facet.go` lines 176–193): the faceted axis position is
`parent.pos * n + i`, the orthogonal position and band are inherited, and
slot `i` gets new band `i`; fresh allocation tags start at `c0`. -/
def mkSubs (sub : SubplotT) (nbands : List BandT) (n : Nat) (dirX : Bool) (c0 : Nat) :
    List SubplotT :=
  (List.range n).map (fun i =>
    if dirX then
      SubplotT.mk sub (sub.sx * n + i) sub.sy (nbands.getD i BandT.nilB) sub.shB (c0 + i)
    else
      SubplotT.mk sub sub.sx (sub.sy * n + i) sub.svB (nbands.getD i BandT.nilB) (c0 + i))

/-- The per-facet-application state: the three memoization maps of
`FacetCommon.apply` (old band → new bands, old subplot → new subplots,
(new band, old scale) → cloned scale), the new grouping being built, the
scale assignments made so far, and the allocation counter. -/
structure FState (α : Type) where
  bands : List (BandT × List BandT)
  subs : List (SubplotT × List SubplotT)
  smap : List ((BandT × ScalerV) × ScalerV)
  ndata : List (GroupID (FVal α) × Table (FVal α))
  xset : List (GroupID (FVal α) × ScalerV)
  yset : List (GroupID (FVal α) × ScalerV)
  ctr : Nat

/-- Fetch or create the split of `band` into new bands (`gg/facet.go` lines
166–174). -/
def stepBands {α : Type} [DecidableEq α] (n : Nat) (labs : List String) (band : BandT)
    (st : FState α) : List BandT × FState α :=
  match alook st.bands band with
  | some nb => (nb, st)
  | none =>
    let nb := mkBands band labs st.ctr
    (nb, { st with bands := (band, nb) :: st.bands, ctr := st.ctr + n })

/-- Fetch or create the split of `sub` into new subplots (`gg/facet.go`
lines 176–193). -/
def stepSubs {α : Type} [DecidableEq α] (n : Nat) (dirX : Bool) (sub : SubplotT)
    (nbands : List BandT) (st : FState α) : List SubplotT × FState α :=
  match alook st.subs sub with
  | some ns => (ns, st)
  | none =>
    let ns := mkSubs sub nbands n dirX st.ctr
    (ns, { st with subs := (sub, ns) :: st.subs, ctr := st.ctr + n })

/-- The X-scale splitting step of `FacetCommon.apply` (lines 211–219): fetch
or clone-and-cache the scale for (new band, old scale) and assign it to the
group's new GroupID. -/
def scaleUpdX {α : Type} [DecidableEq α] (doSplit : Bool) (scaler : ScalerV)
    (nband : BandT) (ngid : GroupID (FVal α)) (st : FState α) : FState α :=
  if doSplit then
    match alook st.smap (nband, scaler) with
    | some nsc => { st with xset := (ngid, nsc) :: st.xset }
    | none =>
      let nsc := ScalerV.clone scaler st.ctr
      { st with smap := ((nband, scaler), nsc) :: st.smap, ctr := st.ctr + 1,
                xset := (ngid, nsc) :: st.xset }
  else st

/-- The Y-scale splitting step of `FacetCommon.apply` (lines 220–228); it
shares the (band, scale) cache with the X step. -/
def scaleUpdY {α : Type} [DecidableEq α] (doSplit : Bool) (scaler : ScalerV)
    (nband : BandT) (ngid : GroupID (FVal α)) (st : FState α) : FState α :=
  if doSplit then
    match alook st.smap (nband, scaler) with
    | some nsc => { st with yset := (ngid, nsc) :: st.yset }
    | none =>
      let nsc := ScalerV.clone scaler st.ctr
      { st with smap := ((nband, scaler), nsc) :: st.smap, ctr := st.ctr + 1,
                yset := (ngid, nsc) :: st.yset }
  else st

/-- One iteration of `FacetCommon.apply`'s main loop (lines 154–229): find
the owning subplot, split its band and itself (memoized), re-home the group
under the new subplot for its value by extending the group's parent GroupID,
and split scales if requested. -/
def facetStep {α : Type} [DecidableEq α] (cfg : FacetCfg α) (p : Plot α) (dirX : Bool)
    (n : Nat) (idxL : Option (FVal α) → Nat) (labs : List String)
    (st : FState α) (pr : GroupID (FVal α) × Table (FVal α)) : FState α :=
  let sub := subplotOf pr.1
  let band := if dirX then sub.svB else sub.shB
  let r1 := stepBands n labs band st
  let r2 := stepSubs n dirX sub r1.1 r1.2
  let idx := idxL (labelGet pr.1)
  let nsub := r2.1.getD idx rootSubplot
  let ngid := GroupID.extend pr.1.parent (FVal.sp nsub)
  let st3 : FState α := { r2.2 with ndata := r2.2.ndata ++ [(ngid, pr.2)] }
  let nband := if dirX then nsub.svB else nsub.shB
  let st4 := scaleUpdX cfg.splitX (getScaleIn p.xscales p.xdef pr.1) nband ngid st3
  scaleUpdY cfg.splitY (getScaleIn p.yscales p.ydef pr.1) nband ngid st4

/-- The two ways `FacetCommon.apply` fails fatally: `GroupBy`'s missing
column (`MustColumn`), and calling `Kind()` on a nil `reflect.Type` when no
group yields a value type. -/
inductive FacetErr where
  | missingColumn
  | nilValType
deriving DecidableEq

/-- `FacetCommon.apply` from `gg/facet.go`: group the plot's data by the
facet column, collect the distinct values and index them (sorted when the
value type is orderable — the `canOrder`/`lt` parameters model the runtime
kind check and comparison), then run the main loop and replace the plot's
data and scale assignments.  `c0` is the allocation counter for fresh
identities; the returned counter makes a subsequent facet allocate fresh
objects. -/
def applyF {α : Type} [DecidableEq α] (cfg : FacetCfg α) (canOrder : Bool)
    (lt : α → α → Bool) (dirX : Bool) (p : Plot α) (c0 : Nat) :
    Except FacetErr (Plot α × Nat) :=
  match groupByCol cfg.col p.data with
  | none => Except.error FacetErr.missingColumn
  | some grouped =>
    match grouped.pairs.head? with
    | none => Except.error FacetErr.nilValType
    | some pr0 =>
      match labelGet pr0.1 with
      | none => Except.error FacetErr.nilValType
      | some _ =>
        let valsD := facetVals grouped
        let n := valsD.length
        let idxL := facetIdx canOrder lt valsD
        let labs := (List.range n).map (fun i =>
          cfg.labeler ((valsD.find? (fun v => decide (idxL v = i))).getD none))
        let st0 : FState α := ⟨[], [], [], [], [], [], c0⟩
        let st := grouped.pairs.foldl (facetStep cfg p dirX n idxL labs) st0
        Except.ok ({ data := ⟨st.ndata⟩,
                     xscales := st.xset ++ p.xscales,
                     yscales := st.yset ++ p.yscales,
                     xdef := p.xdef, ydef := p.ydef }, st.ctr)

/-- `FacetX.Apply`: facet into columns (direction "x"). -/
def FacetXApply {α : Type} [DecidableEq α] (cfg : FacetCfg α) (canOrder : Bool)
    (lt : α → α → Bool) (p : Plot α) (c0 : Nat) : Except FacetErr (Plot α × Nat) :=
  applyF cfg canOrder lt true p c0

/-- `FacetY.Apply`: facet into rows (direction "y"). -/
def FacetYApply {α : Type} [DecidableEq α] (cfg : FacetCfg α) (canOrder : Bool)
    (lt : α → α → Bool) (p : Plot α) (c0 : Nat) : Except FacetErr (Plot α × Nat) :=
  applyF cfg canOrder lt false p c0

/-- Whether an `Except` result is a success. -/
def exIsOk {ε β : Type} : Except ε β → Bool
  | Except.ok _ => true
  | Except.error _ => false

/-- The plot of a successful facet application (default on error). -/
def exPlot {α : Type} (r : Except FacetErr (Plot α × Nat)) (d : Plot α) : Plot α :=
  match r with
  | Except.ok pr => pr.1
  | Except.error _ => d

/-- The allocation counter after a successful facet application (default on
error). -/
def exCtr {α : Type} (r : Except FacetErr (Plot α × Nat)) (d : Nat) : Nat :=
  match r with
  | Except.ok pr => pr.2
  | Except.error _ => d

/-- The grid position of the subplot a re-homed group was assigned to (the
subplot reference in its GroupID's label). -/
def posOfGid {α : Type} : GroupID (FVal α) → Option (Nat × Nat) := fun g =>
  match labelGet g with
  | some (FVal.sp s) => some (s.sx, s.sy)
  | _ => none

/-- Boolean strict order on naturals, the comparison of an orderable facet
column. -/
def natLtB : Nat → Nat → Bool := fun a b => decide (a < b)

/-- Whether a scale is a clone of the given original. -/
def isCloneOfB (s orig : ScalerV) : Bool :=
  match s with
  | ScalerV.clone o _ => decide (o = orig)
  | ScalerV.base _ => false

/-! Concrete inputs used by counterexamples and witnesses. -/

/-- A table whose column "c" has equal values non-contiguously (rows 0 and 2
hold 1, row 1 holds 2). -/
def c1T : Table Nat :=
  { cols := [("c", Col.seq [1, 2, 1]), ("v", Col.seq [10, 20, 30])], len := 3 }

/-- The spec's concrete scenario table: g = [1,1,2,2], v = [10,20,30,40]. -/
def exT4 : Table Nat :=
  { cols := [("g", Col.seq [1, 1, 2, 2]), ("v", Col.seq [10, 20, 30, 40])], len := 4 }

/-- A table whose column "k" is a declared constant. -/
def exTconst : Table Nat :=
  { cols := [("k", Col.const 5), ("v", Col.seq [1, 2])], len := 2 }

/-- A two-group grouping (distinct GroupIDs, both tables carrying column
"g") for exercising per-group behaviour of `groupByCol`. -/
def exG2 : Grouping Nat :=
  ⟨[(GroupID.extend GroupID.root 1, exT4), (GroupID.extend GroupID.root 2, exT4)]⟩

/-- A table with all-distinct values in column "d". -/
def exTdistinct : Table Nat :=
  { cols := [("d", Col.seq [4, 2, 9]), ("w", Col.seq [7, 8, 6])], len := 3 }

/-- The C3 scenario table: facet column "f1" with values {1,2} (the spec's
{A,B}) and "f2" with values {10,20} (the spec's {C,D}). -/
def c3T : Table (FVal Nat) :=
  { cols := [("f1", Col.seq [FVal.v 1, FVal.v 1, FVal.v 2, FVal.v 2]),
             ("f2", Col.seq [FVal.v 10, FVal.v 20, FVal.v 10, FVal.v 20])],
    len := 4 }

/-- The C3 scenario plot: a single root group, hence a single subplot. -/
def c3p0 : Plot Nat :=
  { data := ⟨[(GroupID.root, c3T)]⟩, xscales := [], yscales := [],
    xdef := ScalerV.base 0, ydef := ScalerV.base 1 }

/-- FacetX configuration of the C3 scenario. -/
def c3cfg1 : FacetCfg Nat := ⟨"f1", false, false, fun _ => "a"⟩

/-- FacetY configuration of the C3 scenario (SplitYScales set there). -/
def c3cfg2 : FacetCfg Nat := ⟨"f2", false, true, fun _ => "b"⟩

/-- First step of the C3 scenario: FacetX over {1,2}. -/
def c3r1 : Except FacetErr (Plot Nat × Nat) := FacetXApply c3cfg1 true natLtB c3p0 1

/-- The plot after the FacetX step. -/
def c3p1 : Plot Nat := exPlot c3r1 c3p0

/-- Second step of the C3 scenario: FacetY over {10,20}. -/
def c3r2 : Except FacetErr (Plot Nat × Nat) :=
  FacetYApply c3cfg2 true natLtB c3p1 (exCtr c3r1 1000)

/-- The plot after both facet steps. -/
def c3p2 : Plot Nat := exPlot c3r2 c3p0

/-- The C4 scenario table: facet column "c" over 3 distinct values. -/
def c4T : Table (FVal Nat) :=
  { cols := [("c", Col.seq [FVal.v 1, FVal.v 2, FVal.v 3])], len := 3 }

/-- The C4 scenario plot: two pre-existing groups, both owned by the single
root subplot, and an x scale assigned at the root. -/
def c4p0 : Plot Nat :=
  { data := ⟨[(GroupID.extend GroupID.root (FVal.v 100), c4T),
              (GroupID.extend GroupID.root (FVal.v 200), c4T)]⟩,
    xscales := [(GroupID.root, ScalerV.base 7)], yscales := [],
    xdef := ScalerV.base 0, ydef := ScalerV.base 1 }

/-- C4 facet configuration with SplitXScales = false. -/
def c4cfgShared : FacetCfg Nat := ⟨"c", false, false, fun _ => "s"⟩

/-- C4 facet configuration with SplitXScales = true. -/
def c4cfgSplit : FacetCfg Nat := ⟨"c", true, false, fun _ => "s"⟩

/-- C4 facet run with shared x scales. -/
def c4rShared : Except FacetErr (Plot Nat × Nat) := FacetXApply c4cfgShared true natLtB c4p0 1

/-- The plot after the shared-scales facet. -/
def c4pShared : Plot Nat := exPlot c4rShared c4p0

/-- C4 facet run with split x scales. -/
def c4rSplit : Except FacetErr (Plot Nat × Nat) := FacetXApply c4cfgSplit true natLtB c4p0 1

/-- The plot after the split-scales facet. -/
def c4pSplit : Plot Nat := exPlot c4rSplit c4p0

/-- The x scale each group of a plot resolves through `GetScale("x", ·)`. -/
def c4scalesOf (p : Plot Nat) : List ScalerV :=
  p.data.pairs.map (fun pr => getScaleIn p.xscales p.xdef pr.1)

/-- The C10 input: one group whose table has the facet column but no rows. -/
def c10T : Table (FVal Nat) :=
  { cols := [("c", Col.seq ([] : List (FVal Nat)))], len := 0 }

/-- The C10 plot: its data contains one group. -/
def c10p : Plot Nat :=
  { data := ⟨[(GroupID.root, c10T)]⟩, xscales := [], yscales := [],
    xdef := ScalerV.base 0, ydef := ScalerV.base 1 }

/-- The C10 facet configuration. -/
def c10cfg : FacetCfg Nat := ⟨"c", false, false, fun _ => "x"⟩

/-- A one-row table for the witness of the amended C10. -/
def c10wT : Table (FVal Nat) := { cols := [("c", Col.seq [FVal.v 1])], len := 1 }

/-- A plot whose grouped data is nonempty (witness of the amended C10). -/
def c10wp : Plot Nat :=
  { data := ⟨[(GroupID.root, c10wT)]⟩, xscales := [], yscales := [],
    xdef := ScalerV.base 0, ydef := ScalerV.base 1 }

/-- The faceted-direction band of the subplot a re-homed group was assigned
to (its vertical band, for an X facet). -/
def vBandOfGid {α : Type} : GroupID (FVal α) → Option BandT := fun g =>
  match labelGet g with
  | some (FVal.sp s) => some s.svB
  | _ => none

/-- The vertical band each group of a plot landed in. -/
def c4bandsOf (p : Plot Nat) : List (Option BandT) :=
  p.data.pairs.map (fun pr => vBandOfGid pr.1)

/-- The result plot of faceting `c10wp` (one group, one value) by "c": the
single group is re-homed under the single new subplot at (0,0). -/
def c3wRes : Plot Nat :=
  { data := ⟨[(GroupID.extend GroupID.root
        (FVal.sp (SubplotT.mk rootSubplot 0 0 (BandT.mk BandT.nilB "x" 0) BandT.nilB 1)),
      { cols := [("c", Col.const (FVal.v 1))], len := 1 })]⟩,
    xscales := [], yscales := [], xdef := ScalerV.base 0, ydef := ScalerV.base 1 }

/-- The correspondence between an output pair of a facet application and the
grouped input pair it was produced from: the new GroupID extends the old
pair's parent GroupID (not the value-extended one) with a subplot whose
faceted-axis position is `parent.pos * n + valueIndex` and whose orthogonal
position is inherited from the owning subplot. -/
def facetRel {α : Type} (dirX : Bool) (n : Nat) (idxL : Option (FVal α) → Nat)
    (ndp dp : GroupID (FVal α) × Table (FVal α)) : Prop :=
  ∃ ns : SubplotT,
    ndp.1 = GroupID.extend dp.1.parent (FVal.sp ns) ∧ ndp.2 = dp.2 ∧
    ns.sx = (if dirX then (subplotOf dp.1).sx * n + idxL (labelGet dp.1)
             else (subplotOf dp.1).sx) ∧
    ns.sy = (if dirX then (subplotOf dp.1).sy
             else (subplotOf dp.1).sy * n + idxL (labelGet dp.1))

end GoGG

namespace GoGG

/-! Basic lemmas about the grouping engine. -/

variable {V : Type} [DecidableEq V]

theorem optMapList_isSome {κ ν : Type} (f : κ → Option ν) (l : List κ) :
    (optMapList f l).isSome = true ↔ ∀ a ∈ l, (f a).isSome = true := by
  induction l with
  | nil => simp [optMapList]
  | cons a as ih =>
    cases hf : f a <;> cases hm : optMapList f as <;>
      simp_all [optMapList]

theorem firstOccAux_mem (seen : List V) (xs : List V) (x : V) :
    x ∈ firstOccAux seen xs ↔ x ∈ xs ∧ x ∉ seen := by
  induction xs generalizing seen with
  | nil => simp [firstOccAux]
  | cons a as ih =>
    by_cases ha : a ∈ seen
    · rw [firstOccAux, if_pos ha, ih]
      simp only [List.mem_cons]
      constructor
      · rintro ⟨hx, hs⟩
        exact ⟨Or.inr hx, hs⟩
      · rintro ⟨hx | hx, hs⟩
        · subst hx; exact absurd ha hs
        · exact ⟨hx, hs⟩
    · rw [firstOccAux, if_neg ha]
      simp only [List.mem_cons, ih, List.mem_cons]
      by_cases hxa : x = a
      · subst hxa; simp [ha]
      · simp [hxa]

theorem firstOcc_mem (xs : List V) (x : V) : x ∈ firstOcc xs ↔ x ∈ xs := by
  simp [firstOcc, firstOccAux_mem]

theorem firstOccAux_nodup (seen : List V) (xs : List V) : (firstOccAux seen xs).Nodup := by
  induction xs generalizing seen with
  | nil => simp [firstOccAux]
  | cons a as ih =>
    by_cases ha : a ∈ seen
    · rw [firstOccAux, if_pos ha]
      exact ih seen
    · rw [firstOccAux, if_neg ha]
      refine List.nodup_cons.mpr ⟨?_, ih (a :: seen)⟩
      rw [firstOccAux_mem]
      simp

theorem firstOcc_nodup (xs : List V) : (firstOcc xs).Nodup := firstOccAux_nodup [] xs

theorem firstOccAux_of_nodup (seen xs : List V) (h : xs.Nodup) (hd : ∀ x ∈ xs, x ∉ seen) :
    firstOccAux seen xs = xs := by
  induction xs generalizing seen with
  | nil => rfl
  | cons a as ih =>
    rw [firstOccAux, if_neg (hd a (by simp))]
    congr 1
    refine ih (a :: seen) (List.Nodup.of_cons h) ?_
    intro x hx
    simp only [List.mem_cons]
    rintro (rfl | hxs)
    · exact (List.nodup_cons.mp h).1 hx
    · exact hd x (by simp [hx]) hxs

theorem firstOcc_of_nodup (xs : List V) (h : xs.Nodup) : firstOcc xs = xs :=
  firstOccAux_of_nodup [] xs h (by simp)

theorem mem_rowsOf (xs : List V) (v : V) (i : Nat) :
    i ∈ rowsOf xs v ↔ i < xs.length ∧ xs[i]? = some v := by
  simp [rowsOf, List.mem_filter, List.mem_range]

/-- Partition of a list into value buckets: flat-mapping over a duplicate-free
list of keys the filter of the list on each key permutes the list, provided
every element's key occurs among the keys. -/
theorem bind_filter_perm {β ι : Type} [DecidableEq β] (k : ι → β) :
    ∀ (bs : List β) (l : List ι), bs.Nodup → (∀ i ∈ l, k i ∈ bs) →
      List.Perm (bs.flatMap (fun b => l.filter (fun i => decide (k i = b)))) l := by
  intro bs
  induction bs with
  | nil =>
    intro l _ hcov
    have : l = [] := List.eq_nil_iff_forall_not_mem.mpr (fun i hi => by
      simpa using hcov i hi)
    simp [this]
  | cons b0 bs ih =>
    intro l hnd hcov
    have hb0 : b0 ∉ bs := (List.nodup_cons.mp hnd).1
    rw [List.flatMap_cons]
    have hfix : ∀ b ∈ bs,
        l.filter (fun i => decide (k i = b)) =
          (l.filter (fun i => ! decide (k i = b0))).filter (fun i => decide (k i = b)) := by
      intro b hb
      rw [List.filter_filter]
      refine List.filter_congr ?_
      intro i _
      by_cases hk : k i = b
      · have hbne : ¬ b = b0 := fun hbb => hb0 (hbb ▸ hb)
        have hne : ¬ (k i = b0) := by
          intro hk0
          exact hbne (hk ▸ hk0)
        simp [hk, hne, hbne]
      · simp [hk]
    have hmapeq :
        bs.flatMap (fun b => l.filter (fun i => decide (k i = b))) =
          bs.flatMap (fun b =>
            (l.filter (fun i => ! decide (k i = b0))).filter (fun i => decide (k i = b))) := by
      unfold List.flatMap
      exact congrArg List.flatten (List.map_congr_left hfix)
    rw [hmapeq]
    have hcov2 : ∀ i ∈ l.filter (fun i => ! decide (k i = b0)), k i ∈ bs := by
      intro i hi
      rcases List.mem_filter.mp hi with ⟨hil, hnb⟩
      have := hcov i hil
      simp only [List.mem_cons] at this
      rcases this with h | h
      · simp [h] at hnb
      · exact h
    have hperm := ih (l.filter (fun i => ! decide (k i = b0)))
      (List.nodup_cons.mp hnd).2 hcov2
    exact List.Perm.trans (List.Perm.append_left _ hperm) (List.filter_append_perm _ l)

/-- The buckets of `GroupBy`'s scan, concatenated in first-occurrence order
of their values, are a permutation of all row indices. -/
theorem firstOcc_buckets_perm (xs : List V) :
    List.Perm ((firstOcc xs).flatMap (fun v => rowsOf xs v)) (List.range xs.length) := by
  have h := bind_filter_perm (fun i => xs[i]?) ((firstOcc xs).map some)
    (List.range xs.length)
    (List.Nodup.map (fun a b => by simp) (firstOcc_nodup xs))
    ?_
  · rw [List.flatMap_map] at h
    simpa [rowsOf, Function.comp] using h
  · intro i hi
    rw [List.mem_range] at hi
    show xs[i]? ∈ List.map some (firstOcc xs)
    rw [List.getElem?_eq_getElem hi]
    exact List.mem_map_of_mem _ ((firstOcc_mem xs _).mpr (List.getElem_mem hi))

/-! Lemmas about tables, columns and gathered sub-tables. -/

theorem find?_assoc_unique {ν : Type} (l : List (String × ν)) (hnd : (l.map Prod.fst).Nodup)
    (nc : String × ν) (hm : nc ∈ l) :
    (l.find? (fun x => decide (x.1 = nc.1))).map Prod.snd = some nc.2 := by
  induction l with
  | nil => cases hm
  | cons a l ih =>
    rcases List.mem_cons.mp hm with rfl | hm2
    · simp [List.find?_cons]
    · have hne : ¬ (a.1 = nc.1) := by
        intro he
        apply (List.nodup_cons.mp hnd).1
        rw [he]
        exact List.mem_map_of_mem Prod.fst hm2
      rw [List.find?_cons]
      rw [decide_eq_false hne]
      exact ih (List.nodup_cons.mp hnd).2 hm2

theorem findCol_of_mem (t : Table V) (nc : String × Col V) (hnd : (colNames t).Nodup)
    (hm : nc ∈ t.cols) : findCol t nc.1 = some nc.2 :=
  find?_assoc_unique t.cols hnd nc hm

theorem wf_seq_len {t : Table V} {nc : String × Col V} {xs : List V} (hw : Wf t)
    (hm : nc ∈ t.cols) (hs : nc.2 = Col.seq xs) : xs.length = t.len := by
  rcases hw.2 nc hm with h | h <;> rw [hs] at h <;> simpa using h

theorem findCol_mem (t : Table V) (c : String) (col : Col V) (h : findCol t c = some col) :
    ∃ nc ∈ t.cols, nc.1 = c ∧ nc.2 = col := by
  unfold findCol at h
  cases hf : t.cols.find? (fun x => decide (x.1 = c)) with
  | none => rw [hf] at h; cases h
  | some nc =>
    rw [hf] at h
    refine ⟨nc, List.mem_of_find?_eq_some hf, ?_, by simpa using h⟩
    have := List.find?_some hf
    simpa using this

theorem wf_findCol_seq_len {t : Table V} {c : String} {xs : List V} (hw : Wf t)
    (h : findCol t c = some (Col.seq xs)) : xs.length = t.len := by
  obtain ⟨nc, hm, _, h2⟩ := findCol_mem t c _ h
  exact wf_seq_len hw hm h2

theorem findCol_of_tcolumn {t : Table V} {c : String} {xs : List V}
    (h : tcolumn t c = some xs) : findCol t c = some (Col.seq xs) := by
  unfold tcolumn at h
  cases hf : findCol t c with
  | none => rw [hf] at h; cases h
  | some col =>
    cases col with
    | seq ys => rw [hf] at h; cases h; rfl
    | const cv => rw [hf] at h; cases h

theorem findCol_of_tconst {t : Table V} {c : String} {cv : V}
    (h : tconst t c = some cv) : findCol t c = some (Col.const cv) := by
  unfold tconst at h
  cases hf : findCol t c with
  | none => rw [hf] at h; cases h
  | some col =>
    cases col with
    | seq ys => rw [hf] at h; cases h
    | const cw => rw [hf] at h; cases h; rfl

theorem tconst_of_seq {t : Table V} {c : String} {xs : List V}
    (h : findCol t c = some (Col.seq xs)) : tconst t c = none := by
  unfold tconst
  rw [h]

theorem tcolumn_of_seq {t : Table V} {c : String} {xs : List V}
    (h : findCol t c = some (Col.seq xs)) : tcolumn t c = some xs := by
  unfold tcolumn
  rw [h]

theorem multiIndex_getElem? (ys : List V) (rows : List Nat)
    (hv : ∀ i ∈ rows, i < ys.length) (j : Nat) :
    (multiIndex ys rows)[j]? = rows[j]?.bind (fun i => ys[i]?) := by
  induction rows generalizing j with
  | nil => simp [multiIndex]
  | cons i rows ih =>
    have hi : i < ys.length := hv i (by simp)
    have hstep : multiIndex ys (i :: rows) = ys[i] :: multiIndex ys rows := by
      unfold multiIndex
      rw [List.filterMap_cons]
      simp [List.getElem?_eq_getElem hi]
    rw [hstep]
    cases j with
    | zero => simp [List.getElem?_eq_getElem hi]
    | succ j =>
      simp only [List.getElem?_cons_succ]
      exact ih (fun i2 h2 => hv i2 (by simp [h2])) j

theorem multiIndex_length (ys : List V) (rows : List Nat)
    (hv : ∀ i ∈ rows, i < ys.length) :
    (multiIndex ys rows).length = rows.length := by
  induction rows with
  | nil => rfl
  | cons i rows ih =>
    have hi : i < ys.length := hv i (by simp)
    have hstep : multiIndex ys (i :: rows) = ys[i] :: multiIndex ys rows := by
      unfold multiIndex
      rw [List.filterMap_cons]
      simp [List.getElem?_eq_getElem hi]
    rw [hstep]
    simp only [List.length_cons]
    rw [ih (fun i2 h2 => hv i2 (by simp [h2]))]

theorem splitTable_colNames (c : String) (t : Table V) (v : V) (rows : List Nat) :
    colNames (splitTable c t v rows) = colNames t := by
  unfold splitTable colNames
  simp only [List.map_map]
  refine List.map_congr_left ?_
  intro nc _
  by_cases hc : nc.1 = c
  · simp [hc]
  · cases h2 : nc.2 <;> simp [hc, h2]

theorem splitTable_wf (c : String) (t : Table V) (v : V) (xs : List V)
    (hw : Wf t) (hfc : findCol t c = some (Col.seq xs)) :
    Wf (splitTable c t v (rowsOf xs v)) := by
  have hxlen : xs.length = t.len := wf_findCol_seq_len hw hfc
  constructor
  · rw [splitTable_colNames]
    exact hw.1
  · intro nc hnc
    unfold splitTable at hnc
    simp only [List.mem_map] at hnc
    obtain ⟨nc0, hnc0, heq⟩ := hnc
    by_cases hc : nc0.1 = c
    · rw [if_pos hc] at heq
      subst heq
      simp
    · rw [if_neg hc] at heq
      cases h2 : nc0.2 with
      | const cv =>
        rw [h2] at heq
        subst heq
        simp
      | seq ys =>
        rw [h2] at heq
        subst heq
        right
        have hylen : ys.length = t.len := wf_seq_len hw hnc0 h2
        have hv : ∀ i ∈ rowsOf xs v, i < ys.length := by
          intro i hi
          rw [hylen, ← hxlen]
          exact ((mem_rowsOf xs v i).mp hi).1
        show some (multiIndex ys (rowsOf xs v)).length = some (rowsOf xs v).length
        rw [multiIndex_length ys (rowsOf xs v) hv]

theorem splitTable_rowAt (c : String) (t : Table V) (v : V) (xs : List V)
    (hw : Wf t) (hfc : findCol t c = some (Col.seq xs)) (j : Nat)
    (hj : j < (rowsOf xs v).length) :
    rowAt (splitTable c t v (rowsOf xs v)) j = rowAt t ((rowsOf xs v)[j]) := by
  have hxlen : xs.length = t.len := wf_findCol_seq_len hw hfc
  have hjm : (rowsOf xs v)[j] ∈ rowsOf xs v := List.getElem_mem hj
  have hjlt : (rowsOf xs v)[j] < xs.length := ((mem_rowsOf xs v _).mp hjm).1
  have hjv : xs[(rowsOf xs v)[j]]? = some v := ((mem_rowsOf xs v _).mp hjm).2
  unfold rowAt splitTable
  simp only [List.map_map]
  refine List.map_congr_left ?_
  intro nc hnc
  simp only [Function.comp_apply]
  by_cases hc : nc.1 = c
  · have hfc2 : findCol t nc.1 = some nc.2 := findCol_of_mem t nc hw.1 hnc
    rw [hc] at hfc2
    rw [hfc2] at hfc
    have hseq : nc.2 = Col.seq xs := Option.some_inj.mp hfc
    rw [if_pos hc, hseq]
    simp only [colAt]
    rw [if_pos hj, hjv]
  · rw [if_neg hc]
    cases h2 : nc.2 with
    | const cv =>
      simp only [colAt]
      rw [if_pos hj, if_pos (by rw [← hxlen]; exact hjlt)]
    | seq ys =>
      have hylen : ys.length = t.len := wf_seq_len hw hnc h2
      simp only [colAt]
      rw [multiIndex_getElem? ys (rowsOf xs v) ?_ j]
      · rw [List.getElem?_eq_getElem hj]
        rfl
      · intro i hi
        rw [hylen, ← hxlen]
        exact ((mem_rowsOf xs v i).mp hi).1

theorem splitTable_rows (c : String) (t : Table V) (v : V) (xs : List V)
    (hw : Wf t) (hfc : findCol t c = some (Col.seq xs)) :
    rowsOfTable (splitTable c t v (rowsOf xs v)) =
      (rowsOf xs v).map (fun i => rowAt t i) := by
  apply List.ext_getElem?
  intro j
  unfold rowsOfTable
  by_cases hj : j < (rowsOf xs v).length
  · have hlen : (splitTable c t v (rowsOf xs v)).len = (rowsOf xs v).length := rfl
    rw [List.getElem?_map, List.getElem?_map]
    rw [hlen, List.getElem?_range hj, List.getElem?_eq_getElem hj]
    simp only [Option.map_some']
    rw [splitTable_rowAt c t v xs hw hfc j hj]
  · have hlen : (splitTable c t v (rowsOf xs v)).len = (rowsOf xs v).length := rfl
    rw [List.getElem?_map, List.getElem?_map]
    have h1 : (List.range (splitTable c t v (rowsOf xs v)).len)[j]? = none := by
      rw [List.getElem?_eq_none]
      rw [List.length_range, hlen]
      omega
    have h2 : (rowsOf xs v)[j]? = none := by
      rw [List.getElem?_eq_none]
      omega
    rw [h1, h2]
    rfl

/-! Row-level behaviour of `concatRows` and `Flatten`. -/

theorem colAt_eq_colMat (col : Col V) (len i : Nat) : colAt col len i = (colMat col len)[i]? := by
  cases col with
  | seq xs => rfl
  | const cv => simp [colAt, colMat, List.getElem?_replicate]

theorem tcolMat_length (t : Table V) (nm : String) (hw : Wf t) (hnm : nm ∈ colNames t) :
    (tcolMat t nm).length = t.len := by
  obtain ⟨nc0, hnc0, hname⟩ := List.mem_map.mp hnm
  have hfind : findCol t nm = some nc0.2 := by
    rw [← hname]
    exact findCol_of_mem t nc0 hw.1 hnc0
  unfold tcolMat
  rw [hfind]
  cases h2 : nc0.2 with
  | seq ys => simpa [colMat] using wf_seq_len hw hnc0 h2
  | const cv => simp [colMat]

theorem tcols_align (t : Table V) (hw : Wf t) :
    (colNames t).map (fun nm => (nm, tcolMat t nm)) =
      t.cols.map (fun nc => (nc.1, colMat nc.2 t.len)) := by
  unfold colNames
  rw [List.map_map]
  refine List.map_congr_left ?_
  intro nc hnc
  simp only [Function.comp_apply]
  have hfind : findCol t nc.1 = some nc.2 := findCol_of_mem t nc hw.1 hnc
  unfold tcolMat
  rw [hfind]

theorem rowsOfTable_eq_vrows (t : Table V) :
    rowsOfTable t = vrows (t.cols.map (fun nc => (nc.1, colMat nc.2 t.len))) t.len := by
  unfold rowsOfTable vrows rowAt
  refine List.map_congr_left ?_
  intro i _
  rw [List.map_map]
  refine List.map_congr_left ?_
  intro nc _
  simp only [Function.comp_apply]
  exact colAt_eq_colMat nc.2 t.len i

theorem vrows_split (names : List String) (f g : String → List V) (n1 n2 : Nat)
    (hf : ∀ nm ∈ names, (f nm).length = n1) :
    vrows (names.map (fun nm => (nm, f nm ++ g nm))) (n1 + n2) =
      vrows (names.map (fun nm => (nm, f nm))) n1 ++
        vrows (names.map (fun nm => (nm, g nm))) n2 := by
  unfold vrows
  rw [List.range_add, List.map_append, List.map_map]
  congr 1
  · refine List.map_congr_left ?_
    intro i hi
    rw [List.map_map, List.map_map]
    refine List.map_congr_left ?_
    intro nm hnm
    simp only [Function.comp_apply]
    rw [List.getElem?_append_left (by rw [hf nm hnm]; exact List.mem_range.mp hi)]
  · refine List.map_congr_left ?_
    intro i hi
    simp only [Function.comp_apply]
    rw [List.map_map, List.map_map]
    refine List.map_congr_left ?_
    intro nm hnm
    simp only [Function.comp_apply]
    rw [List.getElem?_append_right (by rw [hf nm hnm]; omega)]
    rw [hf nm hnm]
    congr 1
    omega

theorem vrows_catMats (names : List String) :
    ∀ ts : List (Table V), (∀ t ∈ ts, Wf t ∧ colNames t = names) →
      vrows (names.map (fun nm => (nm, catMats ts nm))) ((ts.map (fun t => t.len)).sum) =
        (ts.map rowsOfTable).flatten := by
  intro ts
  induction ts with
  | nil =>
    intro _
    simp [vrows, catMats]
  | cons t ts ih =>
    intro h
    have ht := h t (by simp)
    have hrest : ∀ u ∈ ts, Wf u ∧ colNames u = names := fun u hu => h u (by simp [hu])
    have hstep : ∀ nm, catMats (t :: ts) nm = tcolMat t nm ++ catMats ts nm := by
      intro nm
      rfl
    have hlen1 : ∀ nm ∈ names, (tcolMat t nm).length = t.len := by
      intro nm hnm
      exact tcolMat_length t nm ht.1 (ht.2 ▸ hnm)
    have hsum : ((t :: ts).map (fun u => u.len)).sum =
        t.len + ((ts.map (fun u => u.len)).sum) := by
      simp
    have hcols : names.map (fun nm => (nm, catMats (t :: ts) nm)) =
        names.map (fun nm => (nm, tcolMat t nm ++ catMats ts nm)) := by
      refine List.map_congr_left ?_
      intro nm _
      rw [hstep]
    rw [hcols, hsum, vrows_split names (fun nm => tcolMat t nm) (fun nm => catMats ts nm)
      t.len ((ts.map (fun u => u.len)).sum) hlen1]
    rw [ih hrest]
    have hfirst : vrows (names.map (fun nm => (nm, tcolMat t nm))) t.len = rowsOfTable t := by
      rw [rowsOfTable_eq_vrows t, ← tcols_align t ht.1, ht.2]
    rw [hfirst]
    simp

theorem concatRows_colNames (t0 t1 : Table V) (rest : List (Table V)) :
    colNames (concatRows (t0 :: t1 :: rest)) = colNames t0 := by
  show colNames
      ({ cols := t0.cols.map (fun nc =>
           (nc.1, Col.seq ((t0 :: t1 :: rest).flatMap (fun t => tcolMat t nc.1)))),
         len := ((t0 :: t1 :: rest).map (fun t => t.len)).sum } : Table V) = colNames t0
  unfold colNames
  rw [List.map_map]
  rfl

theorem concatRows_rows (t0 t1 : Table V) (rest : List (Table V))
    (h : ∀ t ∈ t0 :: t1 :: rest, Wf t ∧ colNames t = colNames t0) :
    rowsOfTable (concatRows (t0 :: t1 :: rest)) =
      ((t0 :: t1 :: rest).map rowsOfTable).flatten := by
  have h1 : rowsOfTable (concatRows (t0 :: t1 :: rest)) =
      vrows ((colNames t0).map (fun nm => (nm, catMats (t0 :: t1 :: rest) nm)))
        (((t0 :: t1 :: rest).map (fun t => t.len)).sum) := by
    unfold rowsOfTable vrows
    refine List.map_congr_left ?_
    intro i _
    show rowAt (concatRows (t0 :: t1 :: rest)) i = _
    unfold rowAt colNames catMats
    show (t0.cols.map (fun nc =>
        (nc.1, Col.seq ((t0 :: t1 :: rest).flatMap (fun t => tcolMat t nc.1))))).map
          (fun nc => colAt nc.2 (concatRows (t0 :: t1 :: rest)).len i) = _
    rw [List.map_map, List.map_map, List.map_map]
    refine List.map_congr_left ?_
    intro nc _
    rfl
  rw [h1]
  exact vrows_catMats (colNames t0) (t0 :: t1 :: rest) h

theorem flatten_eq_concatRows (prs : List (GroupID V × Table V)) :
    Flatten ⟨prs⟩ = concatRows (prs.map (fun pr => pr.2)) := by
  match prs with
  | [] => rfl
  | [pr] => rfl
  | a :: b :: rest => rfl

theorem concatRows_rows_all (ts : List (Table V)) (names : List String)
    (h : ∀ t ∈ ts, Wf t ∧ colNames t = names) :
    rowsOfTable (concatRows ts) = (ts.map rowsOfTable).flatten := by
  match ts with
  | [] => simp [concatRows, rowsOfTable]
  | [t] => simp [concatRows]
  | t0 :: t1 :: rest =>
    refine concatRows_rows t0 t1 rest ?_
    intro t ht
    refine ⟨(h t ht).1, ?_⟩
    rw [(h t ht).2, (h t0 (by simp)).2]

/-! Structure of the children emitted by one `GroupBy` step. -/

theorem groupByCol_singleton (c : String) (gid : GroupID V) (t : Table V) :
    groupByCol c ⟨[(gid, t)]⟩ = (groupByGroup c gid t).map (fun l => ⟨l⟩) := by
  cases h : groupByGroup c gid t <;> simp [groupByCol, optMapList, h]

theorem children_of_seq {c : String} {gid : GroupID V} {t : Table V}
    {l : List (GroupID V × Table V)} {xs : List V}
    (hg : groupByGroup c gid t = some l) (hfc : findCol t c = some (Col.seq xs)) :
    l = (firstOcc xs).map (fun v => (gid.extend v, splitTable c t v (rowsOf xs v))) := by
  unfold groupByGroup at hg
  rw [tconst_of_seq hfc, tcolumn_of_seq hfc] at hg
  exact (Option.some_inj.mp hg).symm

theorem children_of_const {c : String} {gid : GroupID V} {t : Table V}
    {l : List (GroupID V × Table V)} {cv : V}
    (hg : groupByGroup c gid t = some l) (htc : tconst t c = some cv) :
    l = [(gid.extend cv, t)] := by
  unfold groupByGroup at hg
  rw [htc] at hg
  exact (Option.some_inj.mp hg).symm

theorem children_shape {c : String} {gid : GroupID V} {t : Table V}
    {l : List (GroupID V × Table V)} (hg : groupByGroup c gid t = some l) :
    ∀ pr ∈ l, ∃ lab, pr.1 = GroupID.extend gid lab := by
  unfold groupByGroup at hg
  cases htc : tconst t c with
  | some cv =>
    rw [htc] at hg
    intro pr hpr
    rw [← Option.some_inj.mp hg] at hpr
    rcases List.mem_singleton.mp hpr with rfl
    exact ⟨cv, rfl⟩
  | none =>
    rw [htc] at hg
    cases hcol : tcolumn t c with
    | none => rw [hcol] at hg; cases hg
    | some xs =>
      rw [hcol] at hg
      intro pr hpr
      rw [← Option.some_inj.mp hg] at hpr
      obtain ⟨v, _, heq⟩ := List.mem_map.mp hpr
      exact ⟨v, by rw [← heq]⟩

/-- Each child table of one `GroupBy` step is well-formed and keeps the
parent table's column names; its rows are the parent's rows at the child's
bucket indices. -/
theorem children_tables {c : String} {gid : GroupID V} {t : Table V}
    {l : List (GroupID V × Table V)} (hw : Wf t) (hg : groupByGroup c gid t = some l) :
    ∀ pr ∈ l, Wf pr.2 ∧ colNames pr.2 = colNames t := by
  unfold groupByGroup at hg
  cases htc : tconst t c with
  | some cv =>
    rw [htc] at hg
    intro pr hpr
    rw [← Option.some_inj.mp hg] at hpr
    rcases List.mem_singleton.mp hpr with rfl
    exact ⟨hw, rfl⟩
  | none =>
    rw [htc] at hg
    cases hcol : tcolumn t c with
    | none => rw [hcol] at hg; cases hg
    | some xs =>
      rw [hcol] at hg
      have hfc : findCol t c = some (Col.seq xs) := findCol_of_tcolumn hcol
      intro pr hpr
      rw [← Option.some_inj.mp hg] at hpr
      obtain ⟨v, _, heq⟩ := List.mem_map.mp hpr
      rw [← heq]
      exact ⟨splitTable_wf c t v xs hw hfc, splitTable_colNames c t v (rowsOf xs v)⟩

/-- The concatenation of the child tables of one `GroupBy` step holds a
permutation of the parent table's rows. -/
theorem children_concat_perm {c : String} {gid : GroupID V} {t : Table V}
    {l : List (GroupID V × Table V)} (hw : Wf t) (hg : groupByGroup c gid t = some l) :
    List.Perm (rowsOfTable (concatRows (l.map (fun pr => pr.2)))) (rowsOfTable t) := by
  have htabs : ∀ u ∈ l.map (fun pr => pr.2), Wf u ∧ colNames u = colNames t := by
    intro u hu
    obtain ⟨pr, hpr, heq⟩ := List.mem_map.mp hu
    rw [← heq]
    exact children_tables hw hg pr hpr
  rw [concatRows_rows_all (l.map (fun pr => pr.2)) (colNames t) htabs]
  unfold groupByGroup at hg
  cases htc : tconst t c with
  | some cv =>
    rw [htc] at hg
    rw [← Option.some_inj.mp hg]
    simp
  | none =>
    rw [htc] at hg
    cases hcol : tcolumn t c with
    | none => rw [hcol] at hg; cases hg
    | some xs =>
      rw [hcol] at hg
      have hfc : findCol t c = some (Col.seq xs) := findCol_of_tcolumn hcol
      have hxlen : xs.length = t.len := wf_findCol_seq_len hw hfc
      rw [← Option.some_inj.mp hg]
      rw [List.map_map, List.map_map]
      have hrows : ((firstOcc xs).map (fun v =>
          rowsOfTable (splitTable c t v (rowsOf xs v)))).flatten =
            ((firstOcc xs).flatMap (fun v => rowsOf xs v)).map (fun i => rowAt t i) := by
        rw [List.map_flatMap]
        unfold List.flatMap
        congr 1
        refine List.map_congr_left ?_
        intro v _
        exact splitTable_rows c t v xs hw hfc
      have hcomp : List.map ((rowsOfTable ∘ fun pr : GroupID V × Table V => pr.2) ∘
          fun v => (gid.extend v, splitTable c t v (rowsOf xs v))) (firstOcc xs) =
            (firstOcc xs).map (fun v => rowsOfTable (splitTable c t v (rowsOf xs v))) := rfl
      rw [hcomp, hrows]
      have hperm := (firstOcc_buckets_perm xs).map (fun i => rowAt t i)
      refine hperm.trans ?_
      rw [hxlen]
      rfl

/-- Each child table's rows are, in order, a sub-sequence of the parent
table's rows. -/
theorem children_sublist {c : String} {gid : GroupID V} {t : Table V}
    {l : List (GroupID V × Table V)} (hw : Wf t) (hg : groupByGroup c gid t = some l) :
    ∀ pr ∈ l, List.Sublist (rowsOfTable pr.2) (rowsOfTable t) := by
  unfold groupByGroup at hg
  cases htc : tconst t c with
  | some cv =>
    rw [htc] at hg
    intro pr hpr
    rw [← Option.some_inj.mp hg] at hpr
    rcases List.mem_singleton.mp hpr with rfl
    exact List.Sublist.refl _
  | none =>
    rw [htc] at hg
    cases hcol : tcolumn t c with
    | none => rw [hcol] at hg; cases hg
    | some xs =>
      rw [hcol] at hg
      have hfc : findCol t c = some (Col.seq xs) := findCol_of_tcolumn hcol
      have hxlen : xs.length = t.len := wf_findCol_seq_len hw hfc
      intro pr hpr
      rw [← Option.some_inj.mp hg] at hpr
      obtain ⟨v, _, heq⟩ := List.mem_map.mp hpr
      rw [← heq]
      show List.Sublist (rowsOfTable (splitTable c t v (rowsOf xs v))) (rowsOfTable t)
      rw [splitTable_rows c t v xs hw hfc]
      have h1 : List.Sublist (rowsOf xs v) (List.range xs.length) := List.filter_sublist _
      have h2 := h1.map (fun i => rowAt t i)
      rw [hxlen] at h2
      exact h2

theorem ungroup_cons (gid0 : GroupID V) (t0 : Table V) (rest : List (GroupID V × Table V))
    (h : ¬ (gid0 = GroupID.root ∧ rest = [])) :
    Ungroup ⟨(gid0, t0) :: rest⟩ = ⟨ungroupRuns gid0.parent [] ((gid0, t0) :: rest)⟩ := by
  show (if gid0 = GroupID.root ∧ rest = []
      then (⟨(gid0, t0) :: rest⟩ : Grouping V)
      else ⟨ungroupRuns gid0.parent [] ((gid0, t0) :: rest)⟩) = _
  rw [if_neg h]

theorem ungroupRuns_all_same (runGid : GroupID V) (acc : List (Table V))
    (prs : List (GroupID V × Table V)) (h : ∀ pr ∈ prs, pr.1.parent = runGid) :
    ungroupRuns runGid acc prs =
      [(runGid, concatRows (acc ++ prs.map (fun pr => pr.2)))] := by
  induction prs generalizing acc with
  | nil => simp [ungroupRuns]
  | cons pr rest ih =>
    obtain ⟨gid, t⟩ := pr
    rw [ungroupRuns]
    rw [if_pos (h (gid, t) (by simp))]
    rw [ih (acc ++ [t]) (fun q hq => h q (by simp [hq]))]
    simp

theorem concatRows_colNames_all (ts : List (Table V)) (names : List String)
    (hne : ts ≠ []) (h : ∀ t ∈ ts, colNames t = names) :
    colNames (concatRows ts) = names := by
  match ts with
  | [] => exact absurd rfl hne
  | [t] => exact h t (by simp)
  | t0 :: t1 :: rest =>
    rw [concatRows_colNames]
    exact h t0 (by simp)

theorem groupByGroup_isSome_iff (c : String) (gid : GroupID V) (t : Table V) :
    (groupByGroup c gid t).isSome = true ↔ (findCol t c).isSome = true := by
  unfold groupByGroup tconst tcolumn
  cases h : findCol t c with
  | none => simp [h]
  | some col => cases col <;> simp [h]

theorem groupByCol_isSome_iff (c : String) (g : Grouping V) :
    (groupByCol c g).isSome = true ↔ ∀ pr ∈ g.pairs, (findCol pr.2 c).isSome = true := by
  have h1 : (groupByCol c g).isSome =
      (optMapList (fun pr => groupByGroup c pr.1 pr.2) g.pairs).isSome := by
    unfold groupByCol
    cases optMapList (fun pr => groupByGroup c pr.1 pr.2) g.pairs <;> rfl
  rw [h1, optMapList_isSome]
  constructor
  · intro h pr hpr
    exact (groupByGroup_isSome_iff c pr.1 pr.2).mp (h pr hpr)
  · intro h pr hpr
    exact (groupByGroup_isSome_iff c pr.1 pr.2).mpr (h pr hpr)

theorem groupBy_single (c : String) (g : Grouping V) :
    GroupBy g [c] = groupByCol c g := by
  cases h : groupByCol c g <;> simp [GroupBy, h]

/-- C6: `GroupBy` on a column name fails — fatally, the whole operation
returns `none` with no partial per-group result — if and only if some
group's table lacks the named column both as an ordinary column and as a
declared constant; if the column exists (in either form) in every group's
table, the operation completes. -/
theorem groupBy_fails_iff_column_missing (c : String) (g : Grouping V) :
    GroupBy g [c] = none ↔ ∃ pr ∈ g.pairs, findCol pr.2 c = none := by
  rw [groupBy_single]
  rw [← Option.not_isSome_iff_eq_none]
  rw [groupByCol_isSome_iff]
  push_neg
  constructor
  · intro ⟨pr, hpr, h⟩
    refine ⟨pr, hpr, Option.not_isSome_iff_eq_none.mp ?_⟩
    simpa using h
  · intro ⟨pr, hpr, h⟩
    exact ⟨pr, hpr, by simp [h]⟩

/-- C8: grouping a table whose grouped-by column is a declared constant
emits exactly one child group: its GroupID is the input GroupID extended
with the constant value, and its table is the input table unchanged (the
column is still a declared constant). -/
theorem groupBy_const_column (c : String) (gid : GroupID V) (t : Table V) (cv : V)
    (h : tconst t c = some cv) :
    groupByCol c ⟨[(gid, t)]⟩ = some ⟨[(GroupID.extend gid cv, t)]⟩ := by
  simp [groupByCol, optMapList, groupByGroup, h]

/-- Witness for C8 at a concrete constant-column table. -/
theorem groupBy_const_column_witness :
    tconst exTconst "k" = some 5 ∧
      groupByCol "k" (⟨[(GroupID.root, exTconst)]⟩ : Grouping Nat) =
        some ⟨[(GroupID.extend GroupID.root 5, exTconst)]⟩ :=
  ⟨rfl, groupBy_const_column "k" GroupID.root exTconst 5 rfl⟩

/-- C9: `GroupBy` on two column names is definitionally the nested
application — grouping by `a` and then grouping the result by `b` — so the
two produce identical groupings (in particular the same (value-pair, rows)
partitions); and `GroupBy` with zero column names returns its input
unchanged. -/
theorem groupBy_two_cols_eq_nested (g : Grouping V) (a b : String) :
    GroupBy g [a, b] = (GroupBy g [a]).bind (fun g2 => GroupBy g2 [b]) ∧
      GroupBy g [] = some g := by
  constructor
  · cases h : groupByCol a g <;> simp [GroupBy, h]
  · rfl

/-! Structure lemmas for `groupByCol` over a whole grouping, and the
contiguity of parent runs. -/

theorem optMapList_some_forall2 {κ ν : Type} (f : κ → Option ν) (l : List κ) (res : List ν)
    (h : optMapList f l = some res) : List.Forall₂ (fun a b => f a = some b) l res := by
  induction l generalizing res with
  | nil =>
    unfold optMapList at h
    cases h
    exact List.Forall₂.nil
  | cons a as ih =>
    unfold optMapList at h
    cases hf : f a with
    | none => rw [hf] at h; cases h
    | some b =>
      rw [hf] at h
      cases hm : optMapList f as with
      | none => rw [hm] at h; cases h
      | some bs =>
        rw [hm] at h
        cases h
        exact List.Forall₂.cons hf (ih bs hm)

theorem groupByCol_structure (c : String) (g out : Grouping V)
    (h : groupByCol c g = some out) :
    ∃ ls : List (List (GroupID V × Table V)),
      List.Forall₂ (fun pr l => groupByGroup c pr.1 pr.2 = some l) g.pairs ls ∧
        out.pairs = ls.flatten := by
  unfold groupByCol at h
  cases hm : optMapList (fun pr => groupByGroup c pr.1 pr.2) g.pairs with
  | none => rw [hm] at h; cases h
  | some ls =>
    rw [hm] at h
    simp only [Option.map_some'] at h
    refine ⟨ls, optMapList_some_forall2 _ _ ls hm, ?_⟩
    rw [← Option.some_inj.mp h]

theorem children_parents_replicate {c : String} {gid : GroupID V} {t : Table V}
    {l : List (GroupID V × Table V)} (hg : groupByGroup c gid t = some l) :
    l.map (fun pr => pr.1.parent) = List.replicate (l.map (fun pr => pr.1.parent)).length gid := by
  apply List.eq_replicate_of_mem
  intro x hx
  obtain ⟨pr, hpr, heq⟩ := List.mem_map.mp hx
  obtain ⟨lab, hlab⟩ := children_shape hg pr hpr
  rw [← heq, hlab]
  rfl

theorem blockJoin_contig {β : Type} (bs : List (β × Nat)) (hnd : (bs.map Prod.fst).Nodup) :
    ContigAt (bs.flatMap (fun b => List.replicate b.2 b.1)) := by
  induction bs with
  | nil =>
    intro i j k x _ _ hi _
    simp at hi
  | cons b bs ih =>
    intro i j k x hij hjk hi hk
    rw [List.flatMap_cons] at hi hk ⊢
    by_cases hkn : k < b.2
    · have hjn : j < b.2 := Nat.lt_of_le_of_lt hjk hkn
      have hin : i < b.2 := Nat.lt_of_le_of_lt (Nat.le_trans hij hjk) hkn
      rw [List.getElem?_append_left (by simpa using hin)] at hi
      rw [List.getElem?_append_left (by simpa using hjn)]
      rw [List.getElem?_replicate] at hi ⊢
      rw [if_pos hin] at hi
      rw [if_pos hjn]
      exact hi
    · push_neg at hkn
      by_cases hin : i < b.2
      · exfalso
        rw [List.getElem?_append_left (by simpa using hin), List.getElem?_replicate,
          if_pos hin] at hi
        have hxb : x = b.1 := (Option.some_inj.mp hi).symm
        rw [List.getElem?_append_right (by simpa using hkn)] at hk
        have hxmem : x ∈ bs.flatMap (fun q => List.replicate q.2 q.1) := List.getElem?_mem hk
        obtain ⟨b2, hb2, hx2⟩ := List.mem_flatMap.mp hxmem
        have hxb2 : x = b2.1 := List.eq_of_mem_replicate hx2
        apply (List.nodup_cons.mp hnd).1
        have : b.1 = b2.1 := by rw [← hxb, hxb2]
        rw [this]
        exact List.mem_map_of_mem Prod.fst hb2
      · push_neg at hin
        have hjn : b.2 ≤ j := Nat.le_trans hin hij
        rw [List.getElem?_append_right (by simpa using hin)] at hi
        rw [List.getElem?_append_right (by simpa using hkn)] at hk
        rw [List.getElem?_append_right (by simpa using hjn)]
        rw [List.length_replicate] at hi hk ⊢
        exact ih (List.nodup_cons.mp hnd).2 (i - b.2) (j - b.2) (k - b.2) x
          (Nat.sub_le_sub_right hij _) (Nat.sub_le_sub_right hjk _) hi hk

theorem groupByCol_parents_eq_blocks (c : String)
    (prs : List (GroupID V × Table V)) (ls : List (List (GroupID V × Table V)))
    (hf : List.Forall₂ (fun pr l => groupByGroup c pr.1 pr.2 = some l) prs ls) :
    (ls.flatten).map (fun pr => pr.1.parent) =
      (List.zipWith (fun (pr : GroupID V × Table V) (l : List (GroupID V × Table V)) =>
          (pr.1, l.length)) prs ls).flatMap (fun b => List.replicate b.2 b.1) := by
  induction hf with
  | nil => rfl
  | @cons pr l prs2 ls2 hg hf2 ih =>
    rw [List.zipWith_cons_cons, List.flatMap_cons, List.flatten_cons, List.map_append, ih]
    congr 1
    have h2 := children_parents_replicate hg
    rw [List.length_map] at h2
    exact h2

theorem zipWith_fst_of_forall2 {κ ν ρ : Type} (f : κ → ρ) (g2 : ν → Nat)
    (prs : List κ) (ls : List ν) {R : κ → ν → Prop} (hf : List.Forall₂ R prs ls) :
    (List.zipWith (fun pr l => (f pr, g2 l)) prs ls).map Prod.fst = prs.map f := by
  induction hf with
  | nil => rfl
  | cons h hf2 ih =>
    rw [List.zipWith_cons_cons, List.map_cons, List.map_cons, ih]

theorem groupByCol_parent_mem (c : String)
    (prs : List (GroupID V × Table V)) (ls : List (List (GroupID V × Table V)))
    (hf : List.Forall₂ (fun pr l => groupByGroup c pr.1 pr.2 = some l) prs ls) :
    ∀ pr ∈ ls.flatten, pr.1.parent ∈ prs.map (fun q => q.1) := by
  induction hf with
  | nil =>
    intro pr hpr
    simp at hpr
  | @cons pr0 l prs2 ls2 hg hf2 ih =>
    intro pr hpr
    rw [List.flatten_cons] at hpr
    rcases List.mem_append.mp hpr with hpr | hpr
    · obtain ⟨lab, hlab⟩ := children_shape hg pr hpr
      rw [List.map_cons, hlab]
      have hpa : (GroupID.extend pr0.1 lab).parent = pr0.1 := rfl
      rw [hpa]
      exact List.mem_cons_self _ _
    · rw [List.map_cons]
      exact List.mem_cons_of_mem _ (ih pr hpr)

/-- C5: the grouping returned by one `GroupBy` step lists groups sharing a
parent GroupID contiguously: every output group's parent is the input
GroupID it was derived from, and the list of parents along the output order
has equal parents only in contiguous runs. -/
theorem groupBy_emits_parents_contiguously (c : String) (g out : Grouping V)
    (hnd : (g.pairs.map (fun pr => pr.1)).Nodup) (h : groupByCol c g = some out) :
    ContigAt (out.pairs.map (fun pr => pr.1.parent)) ∧
      ∀ pr ∈ out.pairs, pr.1.parent ∈ g.pairs.map (fun q => q.1) := by
  obtain ⟨ls, hf, hout⟩ := groupByCol_structure c g out h
  constructor
  · rw [hout, groupByCol_parents_eq_blocks c g.pairs ls hf]
    apply blockJoin_contig
    rw [zipWith_fst_of_forall2 (fun pr : GroupID V × Table V => pr.1)
      (fun l : List (GroupID V × Table V) => l.length) g.pairs ls hf]
    exact hnd
  · intro pr hpr
    rw [hout] at hpr
    exact groupByCol_parent_mem c g.pairs ls hf pr hpr

/-- Witness for C5 at a concrete two-group grouping. -/
theorem groupBy_emits_parents_contiguously_witness :
    (exG2.pairs.map (fun pr => pr.1)).Nodup ∧
      (ContigAt
          ((⟨[(GroupID.extend (GroupID.extend GroupID.root 1) 1,
               { cols := [("g", Col.const 1), ("v", Col.seq [10, 20])], len := 2 }),
              (GroupID.extend (GroupID.extend GroupID.root 1) 2,
               { cols := [("g", Col.const 2), ("v", Col.seq [30, 40])], len := 2 }),
              (GroupID.extend (GroupID.extend GroupID.root 2) 1,
               { cols := [("g", Col.const 1), ("v", Col.seq [10, 20])], len := 2 }),
              (GroupID.extend (GroupID.extend GroupID.root 2) 2,
               { cols := [("g", Col.const 2), ("v", Col.seq [30, 40])], len := 2 })]⟩ :
             Grouping Nat).pairs.map (fun pr => pr.1.parent)) ∧
        ∀ pr ∈ (⟨[(GroupID.extend (GroupID.extend GroupID.root 1) 1,
               { cols := [("g", Col.const 1), ("v", Col.seq [10, 20])], len := 2 }),
              (GroupID.extend (GroupID.extend GroupID.root 1) 2,
               { cols := [("g", Col.const 2), ("v", Col.seq [30, 40])], len := 2 }),
              (GroupID.extend (GroupID.extend GroupID.root 2) 1,
               { cols := [("g", Col.const 1), ("v", Col.seq [10, 20])], len := 2 }),
              (GroupID.extend (GroupID.extend GroupID.root 2) 2,
               { cols := [("g", Col.const 2), ("v", Col.seq [30, 40])], len := 2 })]⟩ :
             Grouping Nat).pairs,
          pr.1.parent ∈ exG2.pairs.map (fun q => q.1)) :=
  ⟨by decide, groupBy_emits_parents_contiguously "g" exG2 _ (by decide) (by decide)⟩

theorem rowsOf_length_one (xs : List V) (hnd : xs.Nodup) (v : V) (hv : v ∈ xs) :
    (rowsOf xs v).length = 1 := by
  obtain ⟨i0, hiv⟩ := List.mem_iff_getElem?.mp hv
  have hi0 : i0 < xs.length := by
    by_contra hlt
    rw [List.getElem?_eq_none (by omega)] at hiv
    cases hiv
  have hmem : i0 ∈ rowsOf xs v := (mem_rowsOf xs v i0).mpr ⟨hi0, hiv⟩
  have hrnd : (rowsOf xs v).Nodup := (List.nodup_range _).filter _
  cases hr : rowsOf xs v with
  | nil => rw [hr] at hmem; cases hmem
  | cons a rest =>
    cases hrest : rest with
    | nil => rfl
    | cons b rest2 =>
      exfalso
      rw [hrest] at hr
      have ha : a ∈ rowsOf xs v := by rw [hr]; simp
      have hb : b ∈ rowsOf xs v := by rw [hr]; simp
      obtain ⟨halt, hav⟩ := (mem_rowsOf xs v a).mp ha
      obtain ⟨hblt, hbv⟩ := (mem_rowsOf xs v b).mp hb
      have hab : a = b := List.getElem?_inj halt hnd (by rw [hav, hbv])
      rw [hr] at hrnd
      exact (List.nodup_cons.mp hrnd).1 (by simp [hab])

/-- C7: grouping a table by a column whose values are pairwise distinct
yields exactly `rowCount(T)` groups, each holding exactly one row, emitted
in original row order (the output GroupIDs are the root extended with the
column's values, in the column's order). -/
theorem groupBy_distinct_values (c : String) (T : Table V) (out : Grouping V) (xs : List V)
    (hw : Wf T) (hfc : findCol T c = some (Col.seq xs)) (hnd : xs.Nodup)
    (h : groupByCol c ⟨[(GroupID.root, T)]⟩ = some out) :
    out.pairs.length = T.len ∧
      (∀ pr ∈ out.pairs, (rowsOfTable pr.2).length = 1) ∧
      out.pairs.map (fun pr => pr.1) = xs.map (fun v => GroupID.extend GroupID.root v) := by
  rw [groupByCol_singleton] at h
  cases hg : groupByGroup c GroupID.root T with
  | none => rw [hg] at h; cases h
  | some l =>
    rw [hg] at h
    simp only [Option.map_some'] at h
    have hout : out = ⟨l⟩ := (Option.some_inj.mp h).symm
    subst hout
    have hl := children_of_seq hg hfc
    rw [firstOcc_of_nodup xs hnd] at hl
    subst hl
    have hxlen : xs.length = T.len := wf_findCol_seq_len hw hfc
    refine ⟨by simpa using hxlen, ?_, by rw [List.map_map]; rfl⟩
    intro pr hpr
    obtain ⟨v, hv, heq⟩ := List.mem_map.mp hpr
    rw [← heq]
    show (rowsOfTable (splitTable c T v (rowsOf xs v))).length = 1
    rw [splitTable_rows c T v xs hw hfc, List.length_map]
    exact rowsOf_length_one xs hnd v hv

/-- Witness for C7 at a concrete all-distinct column. -/
theorem groupBy_distinct_values_witness :
    Wf exTdistinct ∧ ([4, 2, 9] : List Nat).Nodup ∧
      ((⟨[(GroupID.extend GroupID.root 4,
           { cols := [("d", Col.const 4), ("w", Col.seq [7])], len := 1 }),
          (GroupID.extend GroupID.root 2,
           { cols := [("d", Col.const 2), ("w", Col.seq [8])], len := 1 }),
          (GroupID.extend GroupID.root 9,
           { cols := [("d", Col.const 9), ("w", Col.seq [6])], len := 1 })]⟩ :
         Grouping Nat).pairs.length = exTdistinct.len ∧
        (∀ pr ∈ (⟨[(GroupID.extend GroupID.root 4,
           { cols := [("d", Col.const 4), ("w", Col.seq [7])], len := 1 }),
          (GroupID.extend GroupID.root 2,
           { cols := [("d", Col.const 2), ("w", Col.seq [8])], len := 1 }),
          (GroupID.extend GroupID.root 9,
           { cols := [("d", Col.const 9), ("w", Col.seq [6])], len := 1 })]⟩ :
         Grouping Nat).pairs, (rowsOfTable pr.2).length = 1) ∧
        (⟨[(GroupID.extend GroupID.root 4,
           { cols := [("d", Col.const 4), ("w", Col.seq [7])], len := 1 }),
          (GroupID.extend GroupID.root 2,
           { cols := [("d", Col.const 2), ("w", Col.seq [8])], len := 1 }),
          (GroupID.extend GroupID.root 9,
           { cols := [("d", Col.const 9), ("w", Col.seq [6])], len := 1 })]⟩ :
         Grouping Nat).pairs.map (fun pr => pr.1) =
          ([4, 2, 9] : List Nat).map (fun v => GroupID.extend GroupID.root v)) :=
  ⟨by decide, by decide,
    groupBy_distinct_values "d" exTdistinct _ [4, 2, 9] (by decide) (by decide) (by decide)
      (by decide)⟩

/-- C2: flattening the result of grouping a table by a column yields the
same multiset of rows as the table (their row lists are permutations), and
each single group's rows are, in order, a sub-sequence of the table's
original rows. -/
theorem flatten_groupBy_same_rows (c : String) (T : Table V) (out : Grouping V)
    (hw : Wf T) (h : groupByCol c ⟨[(GroupID.root, T)]⟩ = some out) :
    List.Perm (rowsOfTable (Flatten out)) (rowsOfTable T) ∧
      ∀ pr ∈ out.pairs, List.Sublist (rowsOfTable pr.2) (rowsOfTable T) := by
  rw [groupByCol_singleton] at h
  cases hg : groupByGroup c GroupID.root T with
  | none => rw [hg] at h; cases h
  | some l =>
    rw [hg] at h
    simp only [Option.map_some'] at h
    have hout : out = ⟨l⟩ := (Option.some_inj.mp h).symm
    subst hout
    refine ⟨?_, ?_⟩
    · rw [flatten_eq_concatRows]
      exact children_concat_perm hw hg
    · intro pr hpr
      exact children_sublist hw hg pr hpr

/-- Witness for C2 at the spec's concrete table (g = [1,1,2,2],
v = [10,20,30,40]). -/
theorem flatten_groupBy_same_rows_witness :
    Wf exT4 ∧
      (List.Perm
          (rowsOfTable (Flatten
            (⟨[(GroupID.extend GroupID.root 1,
                { cols := [("g", Col.const 1), ("v", Col.seq [10, 20])], len := 2 }),
               (GroupID.extend GroupID.root 2,
                { cols := [("g", Col.const 2), ("v", Col.seq [30, 40])], len := 2 })]⟩ :
              Grouping Nat)))
          (rowsOfTable exT4) ∧
        ∀ pr ∈ (⟨[(GroupID.extend GroupID.root 1,
                { cols := [("g", Col.const 1), ("v", Col.seq [10, 20])], len := 2 }),
               (GroupID.extend GroupID.root 2,
                { cols := [("g", Col.const 2), ("v", Col.seq [30, 40])], len := 2 })]⟩ :
              Grouping Nat).pairs,
          List.Sublist (rowsOfTable pr.2) (rowsOfTable exT4)) :=
  ⟨by decide, flatten_groupBy_same_rows "g" exT4 _ (by decide) (by decide)⟩

/-- C1 fails as stated: grouping `c1T` (column "c" = [1,2,1]) by "c" and
ungrouping yields a single root group whose rows are in value-bucket order
(rows 0, 2, 1 of the input) — not the input's row order, so the table is not
exactly reconstructed. -/
theorem ungroup_groupBy_reorders_rows :
    Option.map (fun g => (Ungroup g).pairs.map (fun pr => rowsOfTable pr.2))
        (groupByCol "c" (⟨[(GroupID.root, c1T)]⟩ : Grouping Nat)) ≠
      some [rowsOfTable c1T] := by
  decide

/-- C1 (amended): for a well-formed table with the grouped-by column present
and at least one row (or the column constant), `Ungroup (GroupBy T c)` is a
single group at the root whose table has T's columns (same names, same
order) and T's rows as a multiset; the row order is the value-bucket order,
which restores the original order exactly when equal column values are
contiguous in T, but not in general. -/
theorem ungroup_groupBy_reconstructs (c : String) (T : Table V) (out : Grouping V)
    (hw : Wf T) (h : groupByCol c ⟨[(GroupID.root, T)]⟩ = some out)
    (hne : (tconst T c).isSome = true ∨ T.len ≠ 0) :
    ∃ u : Table V, Ungroup out = ⟨[(GroupID.root, u)]⟩ ∧
      colNames u = colNames T ∧ List.Perm (rowsOfTable u) (rowsOfTable T) := by
  rw [groupByCol_singleton] at h
  cases hg : groupByGroup c GroupID.root T with
  | none => rw [hg] at h; cases h
  | some l =>
    rw [hg] at h
    simp only [Option.map_some'] at h
    have hout : out = ⟨l⟩ := (Option.some_inj.mp h).symm
    subst hout
    have hlne : l ≠ [] := by
      unfold groupByGroup at hg
      cases htc : tconst T c with
      | some cv =>
        rw [htc] at hg
        rw [← Option.some_inj.mp hg]
        simp
      | none =>
        rw [htc] at hg
        cases hcol : tcolumn T c with
        | none => rw [hcol] at hg; cases hg
        | some xs =>
          rw [hcol] at hg
          have hfc : findCol T c = some (Col.seq xs) := findCol_of_tcolumn hcol
          have hxlen : xs.length = T.len := wf_findCol_seq_len hw hfc
          have hTlen : T.len ≠ 0 := by
            rcases hne with hs | hs
            · rw [htc] at hs; cases hs
            · exact hs
          have hxs : xs ≠ [] := by
            intro hx
            apply hTlen
            rw [← hxlen, hx]
            rfl
          obtain ⟨a, as, rfl⟩ := List.exists_cons_of_ne_nil hxs
          have ha : a ∈ firstOcc (a :: as) := (firstOcc_mem _ a).mpr (by simp)
          have hfo : firstOcc (a :: as) ≠ [] := List.ne_nil_of_mem ha
          rw [← Option.some_inj.mp hg]
          simp only [ne_eq, List.map_eq_nil_iff]
          exact hfo
    obtain ⟨pr0, rest, rfl⟩ := List.exists_cons_of_ne_nil hlne
    obtain ⟨gid0, t0⟩ := pr0
    obtain ⟨lab0, hlab0⟩ := children_shape hg (gid0, t0) (by simp)
    simp only at hlab0
    have hparents : ∀ pr ∈ (gid0, t0) :: rest, pr.1.parent = GroupID.root := by
      intro pr hpr
      obtain ⟨lab, hlab⟩ := children_shape hg pr hpr
      rw [hlab]
      rfl
    refine ⟨concatRows (((gid0, t0) :: rest).map (fun pr => pr.2)), ?_, ?_, ?_⟩
    · rw [ungroup_cons gid0 t0 rest (by simp [hlab0])]
      have hpar0 : gid0.parent = GroupID.root := hparents (gid0, t0) (by simp)
      rw [hpar0, ungroupRuns_all_same GroupID.root [] ((gid0, t0) :: rest) hparents]
      simp
    · refine concatRows_colNames_all _ _ (by simp) ?_
      intro t ht
      obtain ⟨pr, hpr, heq⟩ := List.mem_map.mp ht
      rw [← heq]
      exact (children_tables hw hg pr hpr).2
    · exact children_concat_perm hw hg

/-! Facet-engine claims. -/

theorem forall2_mem_right {κ ν : Type} {R : κ → ν → Prop} {l1 : List κ} {l2 : List ν}
    (hf : List.Forall₂ R l1 l2) : ∀ b ∈ l2, ∃ a ∈ l1, R a b := by
  induction hf with
  | nil =>
    intro b hb
    cases hb
  | cons h hf2 ih =>
    intro b hb
    rcases List.mem_cons.mp hb with rfl | hb2
    · exact ⟨_, by simp, h⟩
    · obtain ⟨a, ha, hr⟩ := ih b hb2
      exact ⟨a, by simp [ha], hr⟩

/-- Every GroupID emitted by a `GroupBy` pass is an extension (never the
root), so its label is present. -/
theorem groupByCol_gid_extend (c : String) (g out : Grouping V)
    (h : groupByCol c g = some out) :
    ∀ pr ∈ out.pairs, ∃ (p : GroupID V) (lab : V), pr.1 = GroupID.extend p lab := by
  obtain ⟨ls, hf, hout⟩ := groupByCol_structure c g out h
  intro pr hpr
  rw [hout] at hpr
  obtain ⟨l, hl, hprl⟩ := List.mem_flatten.mp hpr
  obtain ⟨pr0, _, hg0⟩ := forall2_mem_right hf l hl
  obtain ⟨lab, hlab⟩ := children_shape hg0 pr hprl
  exact ⟨pr0.1, lab, hlab⟩

/-- C10 counterexample: `c10p`'s data contains one group (the claimed
precondition holds), yet the facet application still hits the nil
`reflect.Type` dereference, because the group's table has no rows and so
`GroupBy` yields zero groups. -/
theorem facet_apply_nil_deref_with_one_group :
    applyF c10cfg false natLtB true c10p 0 = Except.error FacetErr.nilValType ∧
      c10p.data.pairs.length = 1 :=
  ⟨rfl, rfl⟩

/-- C10 (amended): `FacetCommon.apply` is not total — the value-type lookup
dereferences a nil `reflect.Type` whenever `GroupBy(data, Col)` yields zero
groups, which the precondition must exclude (one group in the plot's data is
not enough, as a zero-row table shows); when the grouped data is nonempty
the dereference is safe and the application succeeds. -/
theorem facet_apply_ok_of_grouped_nonempty {α : Type} [DecidableEq α] (cfg : FacetCfg α)
    (canOrder : Bool) (lt : α → α → Bool) (dirX : Bool) (p : Plot α) (c0 : Nat)
    (grouped : Grouping (FVal α)) (hg : groupByCol cfg.col p.data = some grouped)
    (hne : grouped.pairs ≠ []) :
    ∃ r, applyF cfg canOrder lt dirX p c0 = Except.ok r := by
  obtain ⟨pr0, rest, hpairs⟩ := List.exists_cons_of_ne_nil hne
  obtain ⟨pgid, lab, hpr0⟩ :=
    groupByCol_gid_extend cfg.col p.data grouped hg pr0 (by rw [hpairs]; simp)
  have h1 : grouped.pairs.head? = some pr0 := by rw [hpairs]; rfl
  unfold applyF
  rw [hg]
  dsimp only
  rw [h1]
  dsimp only
  rw [hpr0]
  exact ⟨_, rfl⟩

/-- Witness for the amended C10 on a one-row table. -/
theorem facet_apply_ok_of_grouped_nonempty_witness :
    groupByCol "c" c10wp.data =
        some (⟨[(GroupID.extend GroupID.root (FVal.v 1),
                 { cols := [("c", Col.const (FVal.v 1))], len := 1 })]⟩ :
              Grouping (FVal Nat)) ∧
      (⟨[(GroupID.extend GroupID.root (FVal.v 1),
          { cols := [("c", Col.const (FVal.v 1))], len := 1 })]⟩ :
        Grouping (FVal Nat)).pairs ≠ [] ∧
      ∃ r, applyF c10cfg false natLtB true c10wp 0 = Except.ok r :=
  ⟨rfl, by decide,
    facet_apply_ok_of_grouped_nonempty c10cfg false natLtB true c10wp 0 _ rfl (by decide)⟩

/-! The per-step and fold structure of `FacetCommon.apply`'s main loop. -/

theorem alook_mem {κ ν : Type} [DecidableEq κ] {l : List (κ × ν)} {k : κ} {v : ν}
    (h : alook l k = some v) : (k, v) ∈ l := by
  induction l with
  | nil => cases h
  | cons p ps ih =>
    unfold alook at h
    by_cases hk : p.1 = k
    · rw [if_pos hk] at h
      have hp : p = (k, v) := by
        obtain ⟨p1, p2⟩ := p
        simp only at hk
        simp only [Option.some_inj] at h
        rw [hk, h]
      rw [← hp]
      exact List.mem_cons_self _ _
    · rw [if_neg hk] at h
      exact List.mem_cons_of_mem _ (ih h)

theorem stepBands_ndata {α : Type} [DecidableEq α] (n : Nat) (labs : List String)
    (band : BandT) (st : FState α) : (stepBands n labs band st).2.ndata = st.ndata := by
  unfold stepBands
  cases alook st.bands band <;> rfl

theorem stepBands_subs {α : Type} [DecidableEq α] (n : Nat) (labs : List String)
    (band : BandT) (st : FState α) : (stepBands n labs band st).2.subs = st.subs := by
  unfold stepBands
  cases alook st.bands band <;> rfl

theorem stepSubs_ndata {α : Type} [DecidableEq α] (n : Nat) (dirX : Bool) (sub : SubplotT)
    (nbands : List BandT) (st : FState α) :
    (stepSubs n dirX sub nbands st).2.ndata = st.ndata := by
  unfold stepSubs
  cases alook st.subs sub <;> rfl

theorem stepSubs_spec {α : Type} [DecidableEq α] (n : Nat) (dirX : Bool) (sub : SubplotT)
    (nbands : List BandT) (st : FState α)
    (hw : ∀ e ∈ st.subs, ∃ nb c, e.2 = mkSubs e.1 nb n dirX c) :
    (∃ nb c, (stepSubs n dirX sub nbands st).1 = mkSubs sub nb n dirX c) ∧
      ∀ e ∈ (stepSubs n dirX sub nbands st).2.subs,
        ∃ nb c, e.2 = mkSubs e.1 nb n dirX c := by
  unfold stepSubs
  cases ha : alook st.subs sub with
  | some ns =>
    refine ⟨?_, ?_⟩
    · have hm := alook_mem ha
      obtain ⟨nb, c, hmk⟩ := hw (sub, ns) hm
      exact ⟨nb, c, hmk⟩
    · exact hw
  | none =>
    refine ⟨⟨nbands, st.ctr, rfl⟩, ?_⟩
    intro e he
    simp only [List.mem_cons] at he
    rcases he with rfl | he
    · exact ⟨nbands, st.ctr, rfl⟩
    · exact hw e he

theorem scaleUpdX_ndata {α : Type} [DecidableEq α] (b : Bool) (sc : ScalerV) (nb : BandT)
    (ngid : GroupID (FVal α)) (st : FState α) :
    (scaleUpdX b sc nb ngid st).ndata = st.ndata := by
  unfold scaleUpdX
  cases b with
  | false => rfl
  | true =>
    simp only [if_pos]
    cases alook st.smap (nb, sc) <;> rfl

theorem scaleUpdX_subs {α : Type} [DecidableEq α] (b : Bool) (sc : ScalerV) (nb : BandT)
    (ngid : GroupID (FVal α)) (st : FState α) :
    (scaleUpdX b sc nb ngid st).subs = st.subs := by
  unfold scaleUpdX
  cases b with
  | false => rfl
  | true =>
    simp only [if_pos]
    cases alook st.smap (nb, sc) <;> rfl

theorem scaleUpdY_ndata {α : Type} [DecidableEq α] (b : Bool) (sc : ScalerV) (nb : BandT)
    (ngid : GroupID (FVal α)) (st : FState α) :
    (scaleUpdY b sc nb ngid st).ndata = st.ndata := by
  unfold scaleUpdY
  cases b with
  | false => rfl
  | true =>
    simp only [if_pos]
    cases alook st.smap (nb, sc) <;> rfl

theorem scaleUpdY_subs {α : Type} [DecidableEq α] (b : Bool) (sc : ScalerV) (nb : BandT)
    (ngid : GroupID (FVal α)) (st : FState α) :
    (scaleUpdY b sc nb ngid st).subs = st.subs := by
  unfold scaleUpdY
  cases b with
  | false => rfl
  | true =>
    simp only [if_pos]
    cases alook st.smap (nb, sc) <;> rfl

theorem mkSubs_getD (sub : SubplotT) (nbands : List BandT) (n : Nat) (dirX : Bool)
    (c0 : Nat) (i : Nat) (hi : i < n) :
    (mkSubs sub nbands n dirX c0).getD i rootSubplot =
      (if dirX then
        SubplotT.mk sub (sub.sx * n + i) sub.sy (nbands.getD i BandT.nilB) sub.shB (c0 + i)
       else
        SubplotT.mk sub sub.sx (sub.sy * n + i) sub.svB (nbands.getD i BandT.nilB) (c0 + i)) := by
  unfold mkSubs
  rw [List.getD_eq_getElem?_getD, List.getElem?_map, List.getElem?_range hi]
  rfl

theorem facetStep_spec {α : Type} [DecidableEq α] (cfg : FacetCfg α) (p : Plot α)
    (dirX : Bool) (n : Nat) (idxL : Option (FVal α) → Nat) (labs : List String)
    (st : FState α) (pr : GroupID (FVal α) × Table (FVal α))
    (hw : ∀ e ∈ st.subs, ∃ nb c, e.2 = mkSubs e.1 nb n dirX c)
    (hidx : idxL (labelGet pr.1) < n) :
    (∀ e ∈ (facetStep cfg p dirX n idxL labs st pr).subs,
        ∃ nb c, e.2 = mkSubs e.1 nb n dirX c) ∧
      ∃ ns : SubplotT,
        (facetStep cfg p dirX n idxL labs st pr).ndata =
          st.ndata ++ [(GroupID.extend pr.1.parent (FVal.sp ns), pr.2)] ∧
        ns.sx = (if dirX then (subplotOf pr.1).sx * n + idxL (labelGet pr.1)
                 else (subplotOf pr.1).sx) ∧
        ns.sy = (if dirX then (subplotOf pr.1).sy
                 else (subplotOf pr.1).sy * n + idxL (labelGet pr.1)) := by
  have hw1 : ∀ e ∈ (stepBands n labs
      (if dirX then (subplotOf pr.1).svB else (subplotOf pr.1).shB) st).2.subs,
      ∃ nb c, e.2 = mkSubs e.1 nb n dirX c := by
    rw [stepBands_subs]
    exact hw
  have hspec := stepSubs_spec n dirX (subplotOf pr.1)
    (stepBands n labs (if dirX then (subplotOf pr.1).svB else (subplotOf pr.1).shB) st).1
    (stepBands n labs (if dirX then (subplotOf pr.1).svB else (subplotOf pr.1).shB) st).2 hw1
  obtain ⟨⟨nb, c, hmk⟩, hwf2⟩ := hspec
  constructor
  · intro e he
    unfold facetStep at he
    rw [scaleUpdY_subs, scaleUpdX_subs] at he
    exact hwf2 e he
  · refine ⟨(stepSubs n dirX (subplotOf pr.1)
      (stepBands n labs (if dirX then (subplotOf pr.1).svB else (subplotOf pr.1).shB) st).1
      (stepBands n labs (if dirX then (subplotOf pr.1).svB else (subplotOf pr.1).shB)
        st).2).1.getD (idxL (labelGet pr.1)) rootSubplot, ?_, ?_, ?_⟩
    · show (facetStep cfg p dirX n idxL labs st pr).ndata = _
      unfold facetStep
      rw [scaleUpdY_ndata, scaleUpdX_ndata]
      show (stepSubs n dirX (subplotOf pr.1) _ _).2.ndata ++ _ = _
      rw [stepSubs_ndata, stepBands_ndata]
    · rw [hmk, mkSubs_getD _ _ _ _ _ _ hidx]
      cases dirX <;> rfl
    · rw [hmk, mkSubs_getD _ _ _ _ _ _ hidx]
      cases dirX <;> rfl

theorem facetFold_spec {α : Type} [DecidableEq α] (cfg : FacetCfg α) (p : Plot α)
    (dirX : Bool) (n : Nat) (idxL : Option (FVal α) → Nat) (labs : List String) :
    ∀ (l : List (GroupID (FVal α) × Table (FVal α))) (st : FState α),
      (∀ e ∈ st.subs, ∃ nb c, e.2 = mkSubs e.1 nb n dirX c) →
      (∀ pr ∈ l, idxL (labelGet pr.1) < n) →
      ∃ post : List (GroupID (FVal α) × Table (FVal α)),
        (List.foldl (facetStep cfg p dirX n idxL labs) st l).ndata = st.ndata ++ post ∧
          List.Forall₂ (facetRel dirX n idxL) post l := by
  intro l
  induction l with
  | nil =>
    intro st _ _
    exact ⟨[], by simp, List.Forall₂.nil⟩
  | cons pr l ih =>
    intro st hw hidx
    obtain ⟨hw2, ns, hnd, hsx, hsy⟩ :=
      facetStep_spec cfg p dirX n idxL labs st pr hw (hidx pr (by simp))
    obtain ⟨post, hpost, hf⟩ := ih (facetStep cfg p dirX n idxL labs st pr) hw2
      (fun q hq => hidx q (by simp [hq]))
    refine ⟨(GroupID.extend pr.1.parent (FVal.sp ns), pr.2) :: post, ?_, ?_⟩
    · rw [List.foldl_cons, hpost, hnd]
      simp
    · exact List.Forall₂.cons ⟨ns, rfl, rfl, hsx, hsy⟩ hf

theorem fvalLt_self_false {α : Type} (lt : α → α → Bool) (hirr : ∀ a, lt a a = false)
    (v : Option (FVal α)) : fvalLt lt v v = false := by
  cases v with
  | none => rfl
  | some fv =>
    cases fv with
    | v a => exact hirr a
    | sp s => rfl

theorem facetIdx_lt {α : Type} [DecidableEq α] (canOrder : Bool) (lt : α → α → Bool)
    (hirr : ∀ a, lt a a = false) (valsD : List (Option (FVal α)))
    (v : Option (FVal α)) (hv : v ∈ valsD) :
    facetIdx canOrder lt valsD v < valsD.length := by
  unfold facetIdx
  cases canOrder with
  | false =>
    simp only [Bool.false_eq_true, if_false]
    apply List.findIdx_lt_length_of_exists
    exact ⟨v, hv, by simp⟩
  | true =>
    simp only [if_true]
    apply Nat.lt_of_le_of_ne (List.length_filter_le _ _)
    intro heq
    have hall := List.filter_length_eq_length.mp heq v hv
    rw [fvalLt_self_false lt hirr v] at hall
    cases hall

theorem facet_label_mem {α : Type} [DecidableEq α] (grouped : Grouping (FVal α))
    (pr : GroupID (FVal α) × Table (FVal α)) (hpr : pr ∈ grouped.pairs) :
    labelGet pr.1 ∈ facetVals grouped := by
  unfold facetVals
  rw [firstOcc_mem]
  exact List.mem_map_of_mem _ hpr

/-- C3: every group processed by a facet application is re-homed by
extending its parent GroupID (not the value-extended one) with the new child
subplot for its value, whose faceted-axis coordinate is
`parent.pos * len(vals) + valueIndex` with the orthogonal coordinate
inherited; and in the concrete scenario, FacetX over two values on a single
subplot followed by FacetY over two values yields subplots at grid positions
(0,0), (1,0), (0,1) and (1,1). -/
theorem facet_rehoming_grid {α : Type} [DecidableEq α] (cfg : FacetCfg α)
    (canOrder : Bool) (lt : α → α → Bool) (dirX : Bool) (p : Plot α) (c0 : Nat)
    (p2 : Plot α) (c2 : Nat) (hirr : ∀ a, lt a a = false)
    (h : applyF cfg canOrder lt dirX p c0 = Except.ok (p2, c2)) :
    (∃ grouped, groupByCol cfg.col p.data = some grouped ∧
        List.Forall₂
          (facetRel dirX (facetVals grouped).length
            (facetIdx canOrder lt (facetVals grouped)))
          p2.data.pairs grouped.pairs) ∧
      (exIsOk c3r1 = true ∧ exIsOk c3r2 = true ∧
        List.Perm (c3p2.data.pairs.map (fun pr => posOfGid pr.1))
          [some (0, 0), some (1, 0), some (0, 1), some (1, 1)]) := by
  constructor
  · unfold applyF at h
    cases hgc : groupByCol cfg.col p.data with
    | none => rw [hgc] at h; cases h
    | some grouped =>
      rw [hgc] at h
      dsimp only at h
      cases hh : grouped.pairs.head? with
      | none => rw [hh] at h; cases h
      | some pr0 =>
        rw [hh] at h
        dsimp only at h
        cases hl : labelGet pr0.1 with
        | none => rw [hl] at h; cases h
        | some lab0 =>
          rw [hl] at h
          dsimp only at h
          refine ⟨grouped, rfl, ?_⟩
          obtain ⟨post, hpost, hf⟩ :=
            facetFold_spec cfg p dirX (facetVals grouped).length
              (facetIdx canOrder lt (facetVals grouped))
              ((List.range (facetVals grouped).length).map (fun i =>
                cfg.labeler (((facetVals grouped).find? (fun v =>
                  decide (facetIdx canOrder lt (facetVals grouped) v = i))).getD none)))
              grouped.pairs ⟨[], [], [], [], [], [], c0⟩
              (by intro e he; cases he)
              (fun pr hpr => facetIdx_lt canOrder lt hirr (facetVals grouped)
                (labelGet pr.1) (facet_label_mem grouped pr hpr))
          have hp2 : p2.data.pairs = post := by
            have hinj := congrArg (fun r => match r with
              | Except.ok (pl, _) => pl.data.pairs
              | Except.error _ => []) h
            dsimp only at hinj
            rw [← hinj, hpost]
            simp
          rw [hp2]
          exact hf
  · exact ⟨by decide, by decide, by decide⟩

/-- Witness for C3 on a one-group, one-value facet application. -/
theorem facet_rehoming_grid_witness :
    (∀ a : Nat, natLtB a a = false) ∧
      applyF c10cfg false natLtB true c10wp 0 = Except.ok (c3wRes, 2) ∧
      ((∃ grouped, groupByCol c10cfg.col c10wp.data = some grouped ∧
          List.Forall₂
            (facetRel true (facetVals grouped).length
              (facetIdx false natLtB (facetVals grouped)))
            c3wRes.data.pairs grouped.pairs) ∧
        (exIsOk c3r1 = true ∧ exIsOk c3r2 = true ∧
          List.Perm (c3p2.data.pairs.map (fun pr => posOfGid pr.1))
            [some (0, 0), some (1, 0), some (0, 1), some (1, 1)])) :=
  ⟨fun a => by simp [natLtB],
   rfl,
   facet_rehoming_grid c10cfg false natLtB true c10wp 0 c3wRes 2
     (fun a => by simp [natLtB]) rfl⟩

/-- C4: on a plot with one (root) subplot, two data groups and an original x
scale `base 7` assigned at the root, faceting over the 3 distinct values of
column "c": with SplitXScales=false every re-homed group still resolves
`GetScale("x",·)` to the identical original scale object; with
SplitXScales=true exactly 3 distinct clones of that original are produced —
one per new band — and the two groups landing in the same new band (they
have the same facet value and came from the same original scale) share the
same clone. -/
theorem facet_scale_split_semantics :
    exIsOk c4rShared = true ∧
    c4scalesOf c4pShared = List.replicate 6 (ScalerV.base 7) ∧
    exIsOk c4rSplit = true ∧
    (c4scalesOf c4pSplit).length = 6 ∧
    ((c4scalesOf c4pSplit).take 3).Nodup ∧
    (c4scalesOf c4pSplit).getD 0 (ScalerV.base 0) =
      (c4scalesOf c4pSplit).getD 3 (ScalerV.base 0) ∧
    (c4scalesOf c4pSplit).getD 1 (ScalerV.base 0) =
      (c4scalesOf c4pSplit).getD 4 (ScalerV.base 0) ∧
    (c4scalesOf c4pSplit).getD 2 (ScalerV.base 0) =
      (c4scalesOf c4pSplit).getD 5 (ScalerV.base 0) ∧
    (c4scalesOf c4pSplit).all (fun s => isCloneOfB s (ScalerV.base 7)) = true ∧
    ((c4bandsOf c4pSplit).take 3).Nodup ∧
    (c4bandsOf c4pSplit).getD 0 none = (c4bandsOf c4pSplit).getD 3 none ∧
    (c4bandsOf c4pSplit).getD 1 none = (c4bandsOf c4pSplit).getD 4 none ∧
    (c4bandsOf c4pSplit).getD 2 none = (c4bandsOf c4pSplit).getD 5 none := by
  decide

/-- Witness for the amended C1 at the spec's concrete table. -/
theorem ungroup_groupBy_reconstructs_witness :
    Wf exT4 ∧ exT4.len ≠ 0 ∧
      (∃ u : Table Nat,
        Ungroup (⟨[(GroupID.extend GroupID.root 1,
                { cols := [("g", Col.const 1), ("v", Col.seq [10, 20])], len := 2 }),
               (GroupID.extend GroupID.root 2,
                { cols := [("g", Col.const 2), ("v", Col.seq [30, 40])], len := 2 })]⟩ :
              Grouping Nat) = ⟨[(GroupID.root, u)]⟩ ∧
          colNames u = colNames exT4 ∧
          List.Perm (rowsOfTable u) (rowsOfTable exT4)) :=
  ⟨by decide, by decide,
    ungroup_groupBy_reconstructs "g" exT4 _ (by decide) (by decide) (Or.inr (by decide))⟩

end GoGG
